import Mathlib

/-!
# Verification of the powercfg text-parsing core

Shallow embedding of `src/powercfg.py`: the `Node` parsing primitives
(regex patterns `_GUID_PATTERN`, `_NAME_PATTERN`, `_SPACE_{2,4,6}_PATTERN`),
the `Setting` / `SubGroup` / `Scheme` entity tree, the block-splitting scans
of `SubGroup._parse` and `Scheme._parse`, value validation and mutation
(`__check_value`, `__set_value`, `set_ac_value`, `set_dc_value`), and JSON
export / restore (`to_json`, `load_from_json`).

Python exceptions are modelled with `Except`; operations that mutate an
object in place before possibly raising return the partially mutated object
alongside the error, mirroring the fact that a Python object keeps the
mutations applied before an exception escaped.
-/

deriving instance DecidableEq for Except

namespace Powercfg

/-- Python exception values that the modelled code can raise. -/
inductive PyErr where
  /-- `IndexError`: out-of-range subscript (`spt[1]`, `doc[0]`, `options[1]`, …). -/
  | indexError
  /-- `ValueError`: `int(x, 16)` / `int(x)` on a malformed literal. -/
  | valueError
  /-- `KeyError`: missing dictionary key during `load_from_json`. -/
  | keyError
  /-- `TypeError`: ordered comparison against `None`. -/
  | typeError
  /-- `WrongSettingValueException`, with the data interpolated into its message:
  setting name, GUID, rejected value, option list and option-type label. -/
  | wrongSettingValue (name : Option String) (guid : Option String)
      (value : Option Int) (options : List Int) (optionsTypeStr : String)
  /-- `Exception("Wrong guid for schema")` raised by `Scheme.load_from_json`. -/
  | wrongGuid
  deriving Repr, DecidableEq

/-! ## Python string primitives -/

/-- Python `str.split(sep)` for a one-character separator, on char lists:
splits on every occurrence, keeping empty segments (`''.split(c) == ['']`). -/
def pySplitCs (sep : Char) : List Char → List (List Char)
  | [] => [[]]
  | c :: rest =>
    match pySplitCs sep rest with
    | [] => [[]]
    | h :: t => if c = sep then [] :: h :: t else (c :: h) :: t

/-- Python `str.split(sep)` for a one-character separator. -/
def pySplit (sep : Char) (s : String) : List String :=
  (pySplitCs sep s.data).map List.asString

/-- `str_to_parse.split('\n')` from `Node.__start_parse`. -/
def pySplitLines (s : String) : List String := pySplit '\n' s

/-- Whitespace characters removed by Python `str.strip()`. -/
def isPySpace (c : Char) : Bool :=
  c = ' ' || c = '\t' || c = '\n' || c = '\r' || c = '\x0b' || c = '\x0c'

/-- Python `str.strip()`. -/
def pyStrip (s : String) : String :=
  (((s.data.dropWhile isPySpace).reverse.dropWhile isPySpace).reverse).asString

/-- Python `sep.join(lst)`. -/
def pyJoin (sep : String) : List String → String
  | [] => ""
  | [x] => x
  | x :: y :: rest => x ++ sep ++ pyJoin sep (y :: rest)

/-- Python `str.startswith(prefix)`. -/
def pyStartsWith (p s : String) : Bool := p.data.isPrefixOf s.data

/-- Python `str.find(sub) != -1` (substring containment), on char lists. -/
def containsSubCs (pat : List Char) : List Char → Bool
  | [] => pat.isEmpty
  | c :: rest => pat.isPrefixOf (c :: rest) || containsSubCs pat rest

/-- Python `s.find(sub) != -1`. -/
def containsSub (pat s : String) : Bool := containsSubCs pat.data s.data

/-! ## Numeric literal parsing -/

/-- Hexadecimal digit, as in the character class `[0-9a-fA-F]`. -/
def isHexDigitCh (c : Char) : Bool :=
  c.isDigit || ('a' ≤ c && c ≤ 'f') || ('A' ≤ c && c ≤ 'F')

/-- Numeric value of a hexadecimal digit. -/
def hexVal (c : Char) : Nat :=
  if c.isDigit then c.toNat - '0'.toNat
  else if 'a' ≤ c && c ≤ 'f' then c.toNat - 'a'.toNat + 10
  else c.toNat - 'A'.toNat + 10

/-- Digits of a nonempty all-hex char list, most significant first. -/
def hexDigitsToNat : List Char → Option Nat
  | [] => none
  | cs =>
    if cs.all isHexDigitCh then
      some (cs.foldl (fun a c => a * 16 + hexVal c) 0)
    else none

/-- Python `int(s, 16)` on an already-stripped string: optional sign, optional
`0x`/`0X` prefix, then at least one hexadecimal digit.  (Digit-group
underscores, which never occur in `powercfg` output, are not modelled.) -/
def parseIntHex (s : String) : Option Int :=
  let (neg, cs) :=
    match s.data with
    | '-' :: rest => (true, rest)
    | '+' :: rest => (false, rest)
    | cs => (false, cs)
  let cs :=
    match cs with
    | '0' :: 'x' :: rest => rest
    | '0' :: 'X' :: rest => rest
    | cs => cs
  (hexDigitsToNat cs).map (fun n => if neg then -(n : Int) else (n : Int))

/-- Python `str.isdigit()` (ASCII): nonempty and all decimal digits. -/
def pyIsDigit (s : String) : Bool := !s.data.isEmpty && s.data.all Char.isDigit

/-- Python `int(s)` on a string that satisfies `isdigit()`. -/
def decToInt (s : String) : Int :=
  (s.data.foldl (fun a c => a * 10 + (c.toNat - '0'.toNat)) 0 : Nat)

/-! ## `Node` regex primitives

`_find_str` / `_find_index` run `re.search`, which returns the leftmost
match.  All three patterns are modelled by direct scanners.
-/

/-- A word character for the `\b` boundary of `_GUID_PATTERN`. -/
def isWordChar (c : Char) : Bool := c.isAlpha || c.isDigit || c = '_'

/-- Consume exactly `n` hexadecimal digits. -/
def takeHexRun : Nat → List Char → Option (List Char)
  | 0, cs => some cs
  | _ + 1, [] => none
  | n + 1, c :: cs => if isHexDigitCh c then takeHexRun n cs else none

/-- Consume `'-'` followed by exactly `n` hexadecimal digits. -/
def takeDashHex (n : Nat) : List Char → Option (List Char)
  | '-' :: cs => takeHexRun n cs
  | _ => none

/-- Does `cs` begin with the 8-4-4-4-12 hyphenated hexadecimal body of
`_GUID_PATTERN`, with a right word boundary after it? -/
def guidShape (cs : List Char) : Bool :=
  match takeHexRun 8 cs with
  | none => false
  | some cs =>
    match takeDashHex 4 cs with
    | none => false
    | some cs =>
      match takeDashHex 4 cs with
      | none => false
      | some cs =>
        match takeDashHex 4 cs with
        | none => false
        | some cs =>
          match takeDashHex 12 cs with
          | none => false
          | some cs =>
            match cs with
            | [] => true
            | c :: _ => !isWordChar c

/-- Left-to-right scan for the leftmost `_GUID_PATTERN` match; `prev` is the
character before the current position, for the left `\b` boundary. -/
def findGuidAux (prev : Option Char) : List Char → Option String
  | [] => none
  | c :: rest =>
    if (match prev with | none => true | some p => !isWordChar p)
        && guidShape (c :: rest) then
      some ((c :: rest).take 36).asString
    else
      findGuidAux (some c) rest

/-- `_find_str(line, _GUID_PATTERN)`: the first GUID in the line, if any. -/
def extractGuid (s : String) : Option String := findGuidAux none s.data

/-- Leftmost match of `_NAME_PATTERN` (`\(([^)]+)\)`), already stripped of its
surrounding parentheses as done by `Node.__start_parse` (`name[1:-1]`). -/
def findNameAux : List Char → Option String
  | [] => none
  | c :: rest =>
    if c = '(' then
      let content := rest.takeWhile (fun d => d ≠ ')')
      if !content.isEmpty && content.length < rest.length then
        some content.asString
      else findNameAux rest
    else findNameAux rest

/-- The parenthesized display name of a header line, delimiters stripped. -/
def extractName (s : String) : Option String := findNameAux s.data

/-- `_SPACE_n_PATTERN` (`^ {n}[^ ]`): exactly `n` spaces then a non-space. -/
def matchIndentCs : Nat → List Char → Bool
  | 0, [] => false
  | 0, c :: _ => c ≠ ' '
  | _ + 1, [] => false
  | n + 1, c :: cs => c = ' ' && matchIndentCs n cs

/-- `_find_index(line, _SPACE_n_PATTERN) != -1`. -/
def matchIndent (n : Nat) (s : String) : Bool := matchIndentCs n s.data

/-! ## `Setting` -/

/-- One element of `Setting.__doc`: a `{'description': …, 'value': …}` pair. -/
structure DocEntry where
  description : String
  value : String
  deriving Repr, DecidableEq

/-- The fields of the `Setting` class.  `Setting.RANGE_OPTIONS = 0`,
`Setting.LIST_OPTIONS = 1`.  Values start out as Python `None`, hence
`Option Int`. -/
structure Setting where
  guid : Option String
  name : Option String
  doc : List DocEntry
  ac_value : Option Int
  old_ac_value : Option Int
  dc_value : Option Int
  old_dc_value : Option Int
  options_type : Nat
  options : List Int
  deriving Repr, DecidableEq

instance : Inhabited Setting :=
  ⟨⟨none, none, [], none, none, none, none, 0, []⟩⟩

/-- `Setting.__value_parse`: a raw doc value starting with `0x` is replaced
by `str(int(value, 16))`; anything else passes through unchanged.  `none`
models the `ValueError` from a malformed hexadecimal literal. -/
def valueParse (value : String) : Option String :=
  if pyStartsWith "0x" value then (parseIntHex value).map toString
  else some value

/-- `Setting.__parse_options`, acting on the parsed `__doc`: reads
`doc[0]['value']` and `doc[1]['value']` (an `IndexError` if `doc` is
shorter), yielding `(options_type, options)`. -/
def parseOptions (doc : List DocEntry) : Except PyErr (Nat × List Int) :=
  match doc with
  | d0 :: d1 :: _ =>
    if pyIsDigit d0.value && pyIsDigit d1.value then
      .ok (0, [decToInt d0.value, decToInt d1.value])
    else
      .ok (1, doc.filterMap fun d =>
        if pyIsDigit d.value then some (decToInt d.value) else none)
  | _ => .error .indexError

/-- Mutable state threaded through the row loop of `Setting._parse`. -/
structure ParseState where
  doc : List DocEntry
  ac_value : Option Int
  old_ac_value : Option Int
  dc_value : Option Int
  old_dc_value : Option Int
  deriving Repr, DecidableEq

/-- The initial `Setting._parse` state (`__doc = []`, values `None`). -/
def initState : ParseState := ⟨[], none, none, none, none⟩

/-- A row is handled by the documentation branch of `Setting._parse` iff it
matches `_SPACE_6_PATTERN` and `rows[i].find('GUID') == -1` (the literal
four-character substring `'GUID'`, not the GUID regex). -/
def docRowCond (r : String) : Bool :=
  matchIndent 6 r && !containsSub "GUID" r

/-- One iteration of the row loop of `Setting._parse`.  The documentation
branch does `spt = rows[i].strip().split(':')` and appends
`{'description': spt[0], 'value': __value_parse(spt[1].strip())}`; the
AC/DC branch does `int(rows[i].split(':')[1].strip(), 16)` and stores it
into `ac_value`/`old_ac_value` if `ac_value` is still `None`, else into
`dc_value`/`old_dc_value`. -/
def parseRow (st : ParseState) (r : String) : Except PyErr ParseState :=
  if docRowCond r then
    match pySplit ':' (pyStrip r) with
    | d :: v :: _ =>
      match valueParse (pyStrip v) with
      | some val => .ok { st with doc := st.doc ++ [⟨d, val⟩] }
      | none => .error .valueError
    | _ => .error .indexError
  else if matchIndent 4 r then
    match pySplit ':' r with
    | _ :: v :: _ =>
      match parseIntHex (pyStrip v) with
      | some value =>
        if st.ac_value = none then
          .ok { st with ac_value := some value, old_ac_value := some value }
        else
          .ok { st with dc_value := some value, old_dc_value := some value }
      | none => .error .valueError
    | _ => .error .indexError
  else
    .ok st

/-- The row loop of `Setting._parse` over the body rows. -/
def parseRows (st : ParseState) : List String → Except PyErr ParseState
  | [] => .ok st
  | r :: rest =>
    match parseRow st r with
    | .ok st' => parseRows st' rest
    | .error e => .error e

/-- `Setting(str_to_parse)`: `Node.__start_parse` splits into rows, takes
GUID and name from row 0, runs `Setting._parse` on the remaining rows, then
`Setting.__parse_options`. -/
def Setting.ofString (s : String) : Except PyErr Setting :=
  match parseRows initState (pySplitLines s).tail with
  | .error e => .error e
  | .ok st =>
    match parseOptions st.doc with
    | .error e => .error e
    | .ok (t, opts) =>
      .ok { guid := extractGuid ((pySplitLines s).headD ""),
            name := extractName ((pySplitLines s).headD ""), doc := st.doc,
            ac_value := st.ac_value, old_ac_value := st.old_ac_value,
            dc_value := st.dc_value, old_dc_value := st.old_dc_value,
            options_type := t, options := opts }

/-- `Setting.get_options_type_str`. -/
def Setting.optionsTypeStr (s : Setting) : String :=
  if s.options_type = 0 then "RANGE" else "LIST"

/-- `Setting.__check_value`.  `none` models the `IndexError` Python would
raise reading `options[0]`/`options[1]` of a RANGE setting with too few
options; the `and` short-circuit is preserved. -/
def Setting.checkValue (s : Setting) (v : Int) : Option Bool :=
  if s.options_type = 0 then
    match s.options with
    | [] => none
    | o0 :: rest =>
      if v < o0 then some false
      else
        match rest with
        | o1 :: _ => some (decide (v ≤ o1))
        | [] => none
  else
    some (s.options.contains v)

/-- `Setting.__check_value` applied to a possibly-`None` argument, as
happens when `load_from_json` passes a persisted `null`:
`None >= options[0]` is a `TypeError` (after `options[0]` itself is read),
while `None in options` is simply `False`. -/
def Setting.checkValueOpt (s : Setting) (v : Option Int) : Except PyErr Bool :=
  match v with
  | some i =>
    match s.checkValue i with
    | some b => .ok b
    | none => .error .indexError
  | none =>
    if s.options_type = 0 then
      match s.options with
      | [] => .error .indexError
      | _ => .error .typeError
    else
      .ok false

/-- `Setting.__set_value`: check, then assign the AC or DC field; on a
failed check raise `WrongSettingValueException` carrying the name, GUID,
value, option list and option-type label, leaving the setting unchanged. -/
def Setting.setValue (s : Setting) (v : Option Int) (isAc : Bool) :
    Except (PyErr × Setting) Setting :=
  match s.checkValueOpt v with
  | .error e => .error (e, s)
  | .ok true =>
    if isAc then .ok { s with ac_value := v }
    else .ok { s with dc_value := v }
  | .ok false =>
    .error (.wrongSettingValue s.name s.guid v s.options s.optionsTypeStr, s)

/-- `Setting.set_ac_value`. -/
def Setting.setAcValue (s : Setting) (v : Int) : Except (PyErr × Setting) Setting :=
  s.setValue (some v) true

/-- `Setting.set_dc_value`. -/
def Setting.setDcValue (s : Setting) (v : Int) : Except (PyErr × Setting) Setting :=
  s.setValue (some v) false

/-- `Setting.is_ac_changed`. -/
def Setting.isAcChanged (s : Setting) : Bool := s.ac_value ≠ s.old_ac_value

/-- `Setting.is_dc_changed`. -/
def Setting.isDcChanged (s : Setting) : Bool := s.dc_value ≠ s.old_dc_value

/-- `Setting.update_old_values`. -/
def Setting.updateOldValues (s : Setting) : Setting :=
  { s with old_ac_value := s.ac_value, old_dc_value := s.dc_value }

/-- The persisted record of one setting, as written by `Setting.to_json`. -/
structure SettingJson where
  name : Option String
  options_type : Nat
  options : List Int
  ac_value : Option Int
  dc_value : Option Int
  doc : List DocEntry
  deriving Repr, DecidableEq

/-- `Setting.to_json`. -/
def Setting.toJson (s : Setting) : SettingJson :=
  ⟨s.name, s.options_type, s.options, s.ac_value, s.dc_value, s.doc⟩

/-- `Setting.load_from_json`: `set_ac_value(json['ac_value'])` then
`set_dc_value(json['dc_value'])` — not atomic. -/
def Setting.loadFromJson (s : Setting) (j : SettingJson) :
    Except (PyErr × Setting) Setting :=
  match s.setValue j.ac_value true with
  | .error e => .error e
  | .ok s1 => s1.setValue j.dc_value false

/-! ## The block-splitting scan of `SubGroup._parse` / `Scheme._parse`

The two loops are character-for-character identical except for the
indentation pattern of the delimiter test, so they are embedded once,
parameterized by the delimiter predicate `isDelim` (`_SPACE_4_PATTERN` plus
GUID for `SubGroup`, `_SPACE_2_PATTERN` plus GUID for `Scheme`).  The loop
state is `start_ind` (`none` for `-1`) plus the accumulated child blocks;
`end_ind` is local to one iteration: it is `-1` again at the start of every
iteration because each iteration that sets it also consumes it. -/

/-- One iteration (index `i`) of the splitting loop. -/
def splitStep (isDelim : String → Bool) (rows : List String)
    (st : Option Nat × List (List String)) (i : Nat) :
    Option Nat × List (List String) :=
  let start := st.1
  let isLast : Bool := i == rows.length - 1
  let hasGuid : Bool := isDelim (rows.getD i "")
  let next : Option Nat × Option Nat :=
    if hasGuid && start.isNone then (some i, none)
    else if start.isSome && hasGuid then (start, some i)
    else if start.isSome && isLast then (start, some rows.length)
    else (start, none)
  match next.2 with
  | none => (next.1, st.2)
  | some e =>
    (some i, st.2 ++ [(rows.drop (next.1.getD 0)).take (e - next.1.getD 0)])

/-- The splitting loop over the index segment `[a, a + len)`. -/
def splitFoldSeg (isDelim : String → Bool) (rows : List String) :
    Option Nat × List (List String) → Nat → Nat → Option Nat × List (List String)
  | st, _, 0 => st
  | st, a, len + 1 => splitFoldSeg isDelim rows (splitStep isDelim rows st a) (a + 1) len

/-- The splitting loop after the first `k` of the `range(len(rows))`
iterations, from the initial state. -/
def splitFold (isDelim : String → Bool) (rows : List String) (k : Nat) :
    Option Nat × List (List String) :=
  splitFoldSeg isDelim rows (none, []) 0 k

/-- The child blocks produced by the full splitting scan, each block being
the row slice `rows[start_ind:end_ind]` (the source joins each slice with
`'\n'` before handing it to the child constructor, which splits it back). -/
def splitBlocks (isDelim : String → Bool) (rows : List String) : List (List String) :=
  (splitFold isDelim rows rows.length).2

/-- Shared child-instantiation step: each block is joined with `'\n'` and
fed to the child constructor `f`; a constructor exception propagates. -/
def mapChildren (f : String → Except PyErr α) : List (List String) → Except PyErr (List α)
  | [] => .ok []
  | b :: bs =>
    match f (pyJoin "\n" b) with
    | .error e => .error e
    | .ok c =>
      match mapChildren f bs with
      | .error e => .error e
      | .ok cs => .ok (c :: cs)

/-- Splitting followed by child instantiation, the whole body of
`SubGroup._parse` / `Scheme._parse`. -/
def parseChildren (isDelim : String → Bool) (f : String → Except PyErr α)
    (rows : List String) : Except PyErr (List α) :=
  mapChildren f (splitBlocks isDelim rows)

/-- The delimiter test of `SubGroup._parse`:
`_SPACE_4_PATTERN` matches and the row contains a GUID. -/
def settingDelim (r : String) : Bool :=
  matchIndent 4 r && (extractGuid r).isSome

/-- The delimiter test of `Scheme._parse`:
`_SPACE_2_PATTERN` matches and the row contains a GUID. -/
def subgroupDelim (r : String) : Bool :=
  matchIndent 2 r && (extractGuid r).isSome

/-! ## `SubGroup` and `Scheme` -/

/-- The fields of the `SubGroup` class. -/
structure SubGroup where
  guid : Option String
  name : Option String
  settings : List Setting
  deriving Repr, DecidableEq

/-- `SubGroup(str_to_parse)`. -/
def SubGroup.ofString (s : String) : Except PyErr SubGroup :=
  match parseChildren settingDelim Setting.ofString (pySplitLines s).tail with
  | .error e => .error e
  | .ok ss => .ok { guid := extractGuid ((pySplitLines s).headD ""),
                    name := extractName ((pySplitLines s).headD ""), settings := ss }

/-- The fields of the `Scheme` class. -/
structure Scheme where
  guid : Option String
  name : Option String
  subgroups : List SubGroup
  deriving Repr, DecidableEq

/-- `Scheme(str_to_parse)`. -/
def Scheme.ofString (s : String) : Except PyErr Scheme :=
  match parseChildren subgroupDelim SubGroup.ofString (pySplitLines s).tail with
  | .error e => .error e
  | .ok gs => .ok { guid := extractGuid ((pySplitLines s).headD ""),
                    name := extractName ((pySplitLines s).headD ""), subgroups := gs }

/-! ## JSON export and restore

Python `dict`s keyed by child GUIDs are modelled as association lists with
Python-`dict` semantics: assignment to an existing key replaces its value in
place, assignment to a new key appends. -/

/-- `d[k] = v` on a Python dict. -/
def pyDictInsert (d : List (Option String × α)) (k : Option String) (v : α) :
    List (Option String × α) :=
  if d.any (fun p => p.1 = k) then
    d.map (fun p => if p.1 = k then (k, v) else p)
  else d ++ [(k, v)]

/-- `d[k]` on a Python dict: `none` models the `KeyError`. -/
def pyDictGet (d : List (Option String × α)) (k : Option String) : Option α :=
  (d.find? (fun p => p.1 = k)).map Prod.snd

/-- The persisted record of one subgroup, as written by `SubGroup.to_json`. -/
structure SubGroupJson where
  name : Option String
  settings : List (Option String × SettingJson)
  deriving Repr, DecidableEq

/-- `SubGroup.to_json`: a dict mapping each setting's GUID to its record. -/
def SubGroup.toJson (g : SubGroup) : SubGroupJson :=
  ⟨g.name, g.settings.foldl (fun d s => pyDictInsert d s.guid s.toJson) []⟩

/-- The persisted record of a scheme, as written by `Scheme.to_json`. -/
structure SchemeJson where
  guid : Option String
  name : Option String
  subgroups : List (Option String × SubGroupJson)
  deriving Repr, DecidableEq

/-- `Scheme.to_json`. -/
def Scheme.toJson (sc : Scheme) : SchemeJson :=
  ⟨sc.guid, sc.name,
   sc.subgroups.foldl (fun d g => pyDictInsert d g.guid g.toJson) []⟩

/-- The `for setting in self.get_settings()` loop inside the single
`try`/`except KeyError` of `SubGroup.load_from_json`.  An error carries the
settings list as mutated so far (settings before the failure keep their
restored values; the failing one keeps its partial mutation). -/
def loadSettingsLoop (dict : List (Option String × SettingJson)) :
    List Setting → Except (PyErr × List Setting) (List Setting)
  | [] => .ok []
  | s :: rest =>
    match pyDictGet dict s.guid with
    | none => .error (.keyError, s :: rest)
    | some js =>
      match s.loadFromJson js with
      | .error (e, s') => .error (e, s' :: rest)
      | .ok s' =>
        match loadSettingsLoop dict rest with
        | .ok rest' => .ok (s' :: rest')
        | .error (e, rest') => .error (e, s' :: rest')

/-- `SubGroup.load_from_json`: the whole settings loop runs inside one
`try`/`except KeyError: pass`, so the first missing key silently ends the
restoration of this subgroup; any other exception propagates. -/
def SubGroup.loadFromJson (g : SubGroup) (j : SubGroupJson) :
    Except (PyErr × SubGroup) SubGroup :=
  match loadSettingsLoop j.settings g.settings with
  | .ok ss => .ok { g with settings := ss }
  | .error (.keyError, ss) => .ok { g with settings := ss }
  | .error (e, ss) => .error (e, { g with settings := ss })

/-- The `for subgroup in self.get_subgroups()` loop of
`Scheme.load_from_json`: here the `try`/`except KeyError: pass` is inside
the loop, so a missing subgroup key skips only that subgroup. -/
def loadSubgroupsLoop (dict : List (Option String × SubGroupJson)) :
    List SubGroup → Except (PyErr × List SubGroup) (List SubGroup)
  | [] => .ok []
  | g :: rest =>
    let step : Except (PyErr × SubGroup) SubGroup :=
      match pyDictGet dict g.guid with
      | none => .ok g
      | some jg =>
        match g.loadFromJson jg with
        | .error (.keyError, g') => .ok g'
        | r => r
    match step with
    | .error (e, g') => .error (e, g' :: rest)
    | .ok g' =>
      match loadSubgroupsLoop dict rest with
      | .ok rest' => .ok (g' :: rest')
      | .error (e, rest') => .error (e, g' :: rest')

/-- `Scheme.load_from_json`: first the persisted GUID must equal the live
scheme's GUID (`Exception("Wrong guid for schema")` otherwise, before any
mutation), then each subgroup is restored. -/
def Scheme.loadFromJson (sc : Scheme) (j : SchemeJson) :
    Except (PyErr × Scheme) Scheme :=
  if j.guid ≠ sc.guid then .error (.wrongGuid, sc)
  else
    match loadSubgroupsLoop j.subgroups sc.subgroups with
    | .ok gs => .ok { sc with subgroups := gs }
    | .error (e, gs) => .error (e, { sc with subgroups := gs })

/-! ## Inversion helpers -/

/-- Inversion of a successful `Setting` construction: the parse state and
option inference behind the resulting fields. -/
theorem Setting.ofString_ok {s : String} {st : Setting}
    (h : Setting.ofString s = .ok st) :
    ∃ ps, parseRows initState (pySplitLines s).tail = .ok ps ∧
      parseOptions ps.doc = .ok (st.options_type, st.options) ∧
      st.doc = ps.doc ∧ st.ac_value = ps.ac_value ∧
      st.old_ac_value = ps.old_ac_value ∧ st.dc_value = ps.dc_value ∧
      st.old_dc_value = ps.old_dc_value := by
  unfold Setting.ofString at h
  cases hp : parseRows initState (pySplitLines s).tail with
  | error e => rw [hp] at h; exact absurd h (by simp)
  | ok ps =>
    rw [hp] at h
    dsimp only at h
    cases ho : parseOptions ps.doc with
    | error e => rw [ho] at h; exact absurd h (by simp)
    | ok p =>
      obtain ⟨t, opts⟩ := p
      rw [ho] at h
      dsimp only at h
      simp only [Except.ok.injEq] at h
      refine ⟨ps, rfl, ?_, ?_, ?_, ?_, ?_, ?_⟩ <;> rw [← h]
      exact ho

/-- `Setting.__check_value` only reads the option fields. -/
theorem Setting.checkValue_of_fields (s s' : Setting) (v : Int)
    (ht : s'.options_type = s.options_type) (ho : s'.options = s.options) :
    s'.checkValue v = s.checkValue v := by
  unfold Setting.checkValue
  rw [ht, ho]

/-- The spec's description of the option domain: `v` violates the domain
when it falls outside the inclusive `[options[0], options[1]]` interval for
a RANGE setting, or is not a member of `options` for a LIST setting. -/
def violatesDomain (s : Setting) (v : Int) : Bool :=
  if s.options_type = 0 then
    !(decide (s.options.getD 0 0 ≤ v ∧ v ≤ s.options.getD 1 0))
  else !(s.options.contains v)

/-- For a setting whose RANGE options really are a two-element list (as
`__parse_options` always produces), `__check_value` decides exactly the
spec's domain-membership test. -/
theorem Setting.checkValue_eq_violates (s : Setting) (v : Int)
    (hw : s.options_type = 0 → ∃ o0 o1, s.options = [o0, o1]) :
    s.checkValue v = some (!violatesDomain s v) := by
  unfold Setting.checkValue violatesDomain
  by_cases ht : s.options_type = 0
  · obtain ⟨o0, o1, ho⟩ := hw ht
    rw [ho]
    simp only [ht, if_pos, if_true]
    by_cases h0 : v < o0
    · have : ¬(o0 ≤ v ∧ v ≤ o1) := by omega
      simp [h0, this]
    · have : (o0 ≤ v ∧ v ≤ o1) ↔ v ≤ o1 := by omega
      simp [h0, this]
  · simp [ht]

/-- **C4.** For every `Setting` (with the RANGE invariant established by
construction) and every integer `v`, `set_ac_value(v)` and `set_dc_value(v)`
raise `WrongSettingValueException` exactly when `v` violates the option
domain; the exception carries the setting's name, GUID, the rejected value,
the full option list and the option-type label, and the setting is returned
unchanged; on success only the target value field is updated, the old
values staying untouched. -/
theorem setValue_rejects_iff_violates (s : Setting) (v : Int)
    (hw : s.options_type = 0 → ∃ o0 o1, s.options = [o0, o1]) :
    (violatesDomain s v = true →
        s.setAcValue v =
          .error (.wrongSettingValue s.name s.guid (some v) s.options s.optionsTypeStr, s) ∧
        s.setDcValue v =
          .error (.wrongSettingValue s.name s.guid (some v) s.options s.optionsTypeStr, s)) ∧
    (violatesDomain s v = false →
        s.setAcValue v = .ok { s with ac_value := some v } ∧
        s.setDcValue v = .ok { s with dc_value := some v }) := by
  have hcv := Setting.checkValue_eq_violates s v hw
  constructor
  · intro hviol
    have hc : s.checkValue v = some false := by rw [hcv, hviol]; rfl
    constructor <;>
      simp [Setting.setAcValue, Setting.setDcValue, Setting.setValue,
            Setting.checkValueOpt, hc]
  · intro hok
    have hc : s.checkValue v = some true := by rw [hcv, hok]; rfl
    constructor <;>
      simp [Setting.setAcValue, Setting.setDcValue, Setting.setValue,
            Setting.checkValueOpt, hc]

/-- A concrete RANGE setting with domain `[0, 15]` and values `1`/`2`. -/
def exRange : Setting :=
  ⟨some "g-range", some "RangeSetting", [⟨"Minimum", "0"⟩, ⟨"Maximum", "15"⟩],
   some 1, some 1, some 2, some 2, 0, [0, 15]⟩

/-- Witness for `setValue_rejects_iff_violates`: at `exRange`, `99` is
rejected with the full error data and the setting untouched, while `7` is
accepted into `ac_value` only. -/
theorem setValue_rejects_iff_violates_witness :
    exRange.setAcValue 99 =
      .error (.wrongSettingValue (some "RangeSetting") (some "g-range") (some 99)
               [0, 15] "RANGE", exRange) ∧
    exRange.setAcValue 7 = .ok { exRange with ac_value := some 7 } := by
  refine ⟨?_, ?_⟩
  · exact ((setValue_rejects_iff_violates exRange 99 (fun _ => ⟨0, 15, rfl⟩)).1 (by decide)).1
  · exact ((setValue_rejects_iff_violates exRange 7 (fun _ => ⟨0, 15, rfl⟩)).2 (by decide)).1

/-- **C7.** Restoring a `Scheme` from a persisted record whose `guid` field
differs fails with the schema-mismatch error, the whole tree untouched
(the error carries the unmutated scheme). -/
theorem schemeLoad_guid_mismatch (sc : Scheme) (j : SchemeJson)
    (h : j.guid ≠ sc.guid) :
    sc.loadFromJson j = .error (.wrongGuid, sc) := by
  unfold Scheme.loadFromJson
  rw [if_pos h]

/-- Witness for `schemeLoad_guid_mismatch` at a concrete scheme and record. -/
theorem schemeLoad_guid_mismatch_witness :
    Scheme.loadFromJson ⟨some "aaa", none, []⟩ ⟨some "bbb", none, []⟩ =
      .error (.wrongGuid, ⟨some "aaa", none, []⟩) :=
  schemeLoad_guid_mismatch ⟨some "aaa", none, []⟩ ⟨some "bbb", none, []⟩ (by decide)

/-- **C10.** `Setting.load_from_json` is not atomic: with a persisted AC
value inside the domain but a persisted DC value outside it, it raises
`WrongSettingValueException` carrying a state whose `ac_value` has already
been mutated to the persisted value while `dc_value` is unchanged. -/
theorem settingLoad_not_atomic (s : Setting) (j : SettingJson) (a d : Int)
    (hja : j.ac_value = some a) (hjd : j.dc_value = some d)
    (hca : s.checkValue a = some true) (hcd : s.checkValue d = some false) :
    s.loadFromJson j =
      .error (.wrongSettingValue s.name s.guid (some d) s.options s.optionsTypeStr,
              { s with ac_value := some a }) := by
  unfold Setting.loadFromJson
  have h1 : s.setValue j.ac_value true = .ok { s with ac_value := some a } := by
    unfold Setting.setValue Setting.checkValueOpt
    rw [hja]; simp [hca]
  rw [h1]
  have hcd1 : Setting.checkValue { s with ac_value := some a } d = some false := by
    rw [Setting.checkValue_of_fields s { s with ac_value := some a } d rfl rfl]
    exact hcd
  unfold Setting.setValue Setting.checkValueOpt
  rw [hjd]
  simp [hcd1, Setting.optionsTypeStr]

/-- Witness for `settingLoad_not_atomic`: restoring `exRange` from a record
with AC `7` (legal) and DC `99` (illegal) fails, leaving `ac_value = 7` and
`dc_value` unchanged in the carried state. -/
theorem settingLoad_not_atomic_witness :
    exRange.loadFromJson ⟨some "RangeSetting", 0, [0, 15], some 7, some 99, []⟩ =
      .error (.wrongSettingValue (some "RangeSetting") (some "g-range") (some 99)
               [0, 15] "RANGE", { exRange with ac_value := some 7 }) :=
  settingLoad_not_atomic exRange ⟨some "RangeSetting", 0, [0, 15], some 7, some 99, []⟩
    7 99 rfl rfl (by decide) (by decide)

set_option maxRecDepth 10000

/-- **C9.** A `Setting` block whose parsed doc sequence has fewer than two
entries fails to construct (`__parse_options` reads `doc[0]` and `doc[1]`
unconditionally), so every successfully constructed `Setting` has at least
two doc entries and a defined `options_type` (`RANGE_OPTIONS = 0` or
`LIST_OPTIONS = 1`). -/
theorem setting_construction_needs_two_docs :
    (∀ (s : String) (ps : ParseState),
        parseRows initState (pySplitLines s).tail = .ok ps →
        ps.doc.length < 2 →
        Setting.ofString s = .error .indexError) ∧
    (∀ (s : String) (st : Setting), Setting.ofString s = .ok st →
        2 ≤ st.doc.length ∧ (st.options_type = 0 ∨ st.options_type = 1)) := by
  constructor
  · intro s ps hp hlen
    unfold Setting.ofString
    rw [hp]
    dsimp only
    have ho : parseOptions ps.doc = .error .indexError := by
      unfold parseOptions
      cases hd : ps.doc with
      | nil => rfl
      | cons d0 tl =>
        cases tl with
        | nil => rfl
        | cons d1 rest =>
          rw [hd] at hlen
          simp only [List.length_cons] at hlen
          omega
    rw [ho]
  · intro s st hok
    obtain ⟨ps, -, ho, hdoc, -, -, -, -⟩ := Setting.ofString_ok hok
    rw [← hdoc] at ho
    unfold parseOptions at ho
    cases hd : st.doc with
    | nil => rw [hd] at ho; exact absurd ho (by simp)
    | cons d0 tl =>
      cases tl with
      | nil => rw [hd] at ho; exact absurd ho (by simp)
      | cons d1 rest =>
        rw [hd] at ho
        dsimp only at ho
        refine ⟨by simp only [List.length_cons]; omega, ?_⟩
        by_cases hb : (pyIsDigit d0.value && pyIsDigit d1.value) = true
        · rw [if_pos hb] at ho
          simp only [Except.ok.injEq, Prod.mk.injEq] at ho
          exact Or.inl ho.1.symm
        · rw [if_neg hb] at ho
          simp only [Except.ok.injEq, Prod.mk.injEq] at ho
          exact Or.inr ho.1.symm

/-- A complete, well-formed RANGE setting block from `powercfg` output. -/
def exSettingText : String :=
  "    Power Setting GUID: 29f6c1db-86da-48c5-9fdb-f2b67b1f44da  (Sleep after)\n" ++
  "      Minimum Possible Setting: 0x00000000\n" ++
  "      Maximum Possible Setting: 0x0000000f\n" ++
  "    Current AC Power Setting Index: 0x00000007\n" ++
  "    Current DC Power Setting Index: 0x00000003"

/-- The `Setting` parsed from `exSettingText`. -/
def exSetting : Setting :=
  ⟨some "29f6c1db-86da-48c5-9fdb-f2b67b1f44da", some "Sleep after",
   [⟨"Minimum Possible Setting", "0"⟩, ⟨"Maximum Possible Setting", "15"⟩],
   some 7, some 7, some 3, some 3, 0, [0, 15]⟩

/-- Witness for `setting_construction_needs_two_docs`: a header-only block
(empty doc) fails with `IndexError`, and the concrete `exSettingText` block
constructs with two doc entries and `options_type` RANGE. -/
theorem setting_construction_needs_two_docs_witness :
    Setting.ofString "    header only" = .error .indexError ∧
    (2 ≤ exSetting.doc.length ∧
      (exSetting.options_type = 0 ∨ exSetting.options_type = 1)) := by
  constructor
  · exact setting_construction_needs_two_docs.1 "    header only" initState
      (by decide) (by decide)
  · exact setting_construction_needs_two_docs.2 exSettingText exSetting (by decide)

/-- **C3.** Option-domain inference for a `Setting` with at least two doc
entries: if both leading doc values are purely numeric, `options_type` is
RANGE and `options` is exactly those two integers in encounter order (not
reordered); otherwise `options_type` is LIST and `options` collects the
integer value of every purely numeric doc entry, in encounter order with
duplicates preserved (`filterMap` keeps order and multiplicity). -/
theorem options_inference (s : String) (st : Setting) (d0 d1 : DocEntry)
    (rest : List DocEntry) (hok : Setting.ofString s = .ok st)
    (hdoc : st.doc = d0 :: d1 :: rest) :
    ((pyIsDigit d0.value && pyIsDigit d1.value) = true →
        st.options_type = 0 ∧
        st.options = [decToInt d0.value, decToInt d1.value]) ∧
    ((pyIsDigit d0.value && pyIsDigit d1.value) = false →
        st.options_type = 1 ∧
        st.options = st.doc.filterMap
          (fun d => if pyIsDigit d.value then some (decToInt d.value) else none)) := by
  obtain ⟨ps, -, ho, hdocps, -, -, -, -⟩ := Setting.ofString_ok hok
  rw [← hdocps] at ho
  rw [hdoc] at ho
  unfold parseOptions at ho
  dsimp only at ho
  constructor
  · intro hb
    rw [if_pos hb] at ho
    simp only [Except.ok.injEq, Prod.mk.injEq] at ho
    exact ⟨ho.1.symm, ho.2.symm⟩
  · intro hb
    rw [if_neg (by rw [hb]; exact Bool.false_ne_true)] at ho
    simp only [Except.ok.injEq, Prod.mk.injEq] at ho
    refine ⟨ho.1.symm, ?_⟩
    rw [hdoc, ← ho.2]

/-- A RANGE setting block whose two numeric doc values are in descending
order. -/
def exSettingTextDesc : String :=
  "    Power Setting GUID: 51dea550-bb38-4bc4-991b-eacf37be5ec8  (Lid action)\n" ++
  "      First Possible Setting: 15\n" ++
  "      Second Possible Setting: 3\n" ++
  "    Current AC Power Setting Index: 0x00000005\n" ++
  "    Current DC Power Setting Index: 0x00000005"

/-- The `Setting` parsed from `exSettingTextDesc`: RANGE bounds `[15, 3]`,
as encountered, not reordered. -/
def exSettingDesc : Setting :=
  ⟨some "51dea550-bb38-4bc4-991b-eacf37be5ec8", some "Lid action",
   [⟨"First Possible Setting", "15"⟩, ⟨"Second Possible Setting", "3"⟩],
   some 5, some 5, some 5, some 5, 0, [15, 3]⟩

/-- A LIST setting block: a non-numeric second doc value, numeric entries
collected in order with a duplicate preserved. -/
def exSettingTextList : String :=
  "    Power Setting GUID: 94ac6d29-73ce-41a6-809f-6363ba21b47e  (Hybrid sleep)\n" ++
  "      Possible Setting Index: 000\n" ++
  "      Possible Setting Friendly Name: Off\n" ++
  "      Possible Setting Index: 001\n" ++
  "      Possible Setting Index: 001\n" ++
  "    Current AC Power Setting Index: 0x00000001\n" ++
  "    Current DC Power Setting Index: 0x00000000"

/-- The `Setting` parsed from `exSettingTextList`: LIST options `[0, 1, 1]`. -/
def exSettingList : Setting :=
  ⟨some "94ac6d29-73ce-41a6-809f-6363ba21b47e", some "Hybrid sleep",
   [⟨"Possible Setting Index", "000"⟩, ⟨"Possible Setting Friendly Name", "Off"⟩,
    ⟨"Possible Setting Index", "001"⟩, ⟨"Possible Setting Index", "001"⟩],
   some 1, some 1, some 0, some 0, 1, [0, 1, 1]⟩

/-- Witness for `options_inference`: the descending-bounds block yields
RANGE `[15, 3]` unreordered; the list block yields LIST `[0, 1, 1]` with
the duplicate preserved. -/
theorem options_inference_witness :
    (exSettingDesc.options_type = 0 ∧ exSettingDesc.options = [15, 3]) ∧
    (exSettingList.options_type = 1 ∧
      exSettingList.options = exSettingList.doc.filterMap
        (fun d => if pyIsDigit d.value then some (decToInt d.value) else none)) := by
  constructor
  · have h := options_inference exSettingTextDesc exSettingDesc
      ⟨"First Possible Setting", "15"⟩ ⟨"Second Possible Setting", "3"⟩ []
      (by decide) (by decide)
    exact (h.1 (by decide))
  · have h := options_inference exSettingTextList exSettingList
      ⟨"Possible Setting Index", "000"⟩ ⟨"Possible Setting Friendly Name", "Off"⟩
      [⟨"Possible Setting Index", "001"⟩, ⟨"Possible Setting Index", "001"⟩]
      (by decide) (by decide)
    exact (h.2 (by decide))

/-! ## The AC/DC value rows of `Setting._parse` -/

/-- The value-row test of `Setting._parse`'s `elif`: not a documentation
row, and matching `_SPACE_4_PATTERN`. -/
def valueRowP (r : String) : Bool := !docRowCond r && matchIndent 4 r

/-- The base-16 integer a value row carries
(`int(rows[i].split(':')[1].strip(), 16)`). -/
def valueRowValue (r : String) : Option Int :=
  match pySplit ':' r with
  | _ :: v :: _ => parseIntHex (pyStrip v)
  | _ => none

/-- The parsed values of the AC/DC value rows among `rows`, in encounter
order. -/
def valsOf (rows : List String) : List Int :=
  (rows.filter valueRowP).filterMap valueRowValue

theorem valsOf_nil : valsOf [] = [] := rfl

theorem valsOf_cons (r : String) (rest : List String) :
    valsOf (r :: rest) =
      if valueRowP r = true then
        match valueRowValue r with
        | some v => v :: valsOf rest
        | none => valsOf rest
      else valsOf rest := by
  unfold valsOf
  by_cases h : valueRowP r = true
  · rw [List.filter_cons_of_pos h, if_pos h, List.filterMap_cons]
    cases valueRowValue r <;> rfl
  · rw [List.filter_cons_of_neg (by simpa using h), if_neg h]

/-- Replay of the AC/DC assignments of `Setting._parse` on the value
sequence alone: the first value fills the AC pair while `ac_value` is still
`None`, every later one overwrites the DC pair. -/
def applyVals (st : ParseState) : List Int → ParseState
  | [] => st
  | v :: rest =>
    applyVals
      (if st.ac_value = none then
        { st with ac_value := some v, old_ac_value := some v }
      else
        { st with dc_value := some v, old_dc_value := some v }) rest

/-- `applyVals` reads and writes only the four value fields. -/
theorem applyVals_congr (vs : List Int) : ∀ st1 st2 : ParseState,
    st1.ac_value = st2.ac_value → st1.old_ac_value = st2.old_ac_value →
    st1.dc_value = st2.dc_value → st1.old_dc_value = st2.old_dc_value →
    (applyVals st1 vs).ac_value = (applyVals st2 vs).ac_value ∧
    (applyVals st1 vs).old_ac_value = (applyVals st2 vs).old_ac_value ∧
    (applyVals st1 vs).dc_value = (applyVals st2 vs).dc_value ∧
    (applyVals st1 vs).old_dc_value = (applyVals st2 vs).old_dc_value := by
  induction vs with
  | nil => intro st1 st2 h1 h2 h3 h4; exact ⟨h1, h2, h3, h4⟩
  | cons v rest ih =>
    intro st1 st2 h1 h2 h3 h4
    unfold applyVals
    rw [h1]
    by_cases hn : st2.ac_value = none
    · rw [if_pos hn, if_pos hn]
      exact ih _ _ rfl rfl h3 h4
    · rw [if_neg hn, if_neg hn]
      exact ih _ _ rfl h2 rfl rfl

/-- The last element of `vs`, or `d` when `vs` is empty. -/
def lastOrKeep (d : Option Int) : List Int → Option Int
  | [] => d
  | v :: rest => lastOrKeep (some v) rest

theorem lastOrKeep_ne_nil : ∀ (vs : List Int) (d : Option Int), vs ≠ [] →
    lastOrKeep d vs = vs.getLast? := by
  intro vs
  induction vs with
  | nil => intro d h; exact absurd rfl h
  | cons v rest ih =>
    intro d _
    show lastOrKeep (some v) rest = _
    cases rest with
    | nil => rfl
    | cons w t =>
      rw [ih (some v) (by simp), List.getLast?_cons_cons]

theorem lastOrKeep_none (vs : List Int) : lastOrKeep none vs = vs.getLast? := by
  cases vs with
  | nil => rfl
  | cons v rest => exact lastOrKeep_ne_nil (v :: rest) none (by simp)

/-- Once `ac_value` is set, every remaining value overwrites the DC pair,
so the last value wins. -/
theorem applyVals_acSome (vs : List Int) : ∀ (st : ParseState) (a : Int),
    st.ac_value = some a →
    (applyVals st vs).ac_value = some a ∧
    (applyVals st vs).old_ac_value = st.old_ac_value ∧
    (applyVals st vs).dc_value = lastOrKeep st.dc_value vs ∧
    (applyVals st vs).old_dc_value = lastOrKeep st.old_dc_value vs := by
  induction vs with
  | nil => intro st a h; exact ⟨h, rfl, rfl, rfl⟩
  | cons v rest ih =>
    intro st a h
    unfold applyVals
    rw [if_neg (by rw [h]; simp)]
    obtain ⟨i1, i2, i3, i4⟩ :=
      ih { st with dc_value := some v, old_dc_value := some v } a h
    exact ⟨i1, i2, i3, i4⟩

/-- From the initial state: `ac` becomes the first value, `dc` the last of
the remaining values. -/
theorem applyVals_initState (vs : List Int) :
    (applyVals initState vs).ac_value = vs.head? ∧
    (applyVals initState vs).old_ac_value = vs.head? ∧
    (applyVals initState vs).dc_value = vs.tail.getLast? ∧
    (applyVals initState vs).old_dc_value = vs.tail.getLast? := by
  cases vs with
  | nil => exact ⟨rfl, rfl, rfl, rfl⟩
  | cons v rest =>
    obtain ⟨i1, i2, i3, i4⟩ :=
      applyVals_acSome rest ⟨[], some v, some v, none, none⟩ v rfl
    exact ⟨i1, i2, i3.trans (lastOrKeep_none rest), i4.trans (lastOrKeep_none rest)⟩

/-- A successful documentation-row step leaves the value fields unchanged. -/
theorem parseRow_docRow {st st' : ParseState} {r : String}
    (hd : docRowCond r = true) (h : parseRow st r = .ok st') :
    st'.ac_value = st.ac_value ∧ st'.old_ac_value = st.old_ac_value ∧
    st'.dc_value = st.dc_value ∧ st'.old_dc_value = st.old_dc_value := by
  unfold parseRow at h
  rw [if_pos hd] at h
  cases hsp : pySplit ':' (pyStrip r) with
  | nil => rw [hsp] at h; exact absurd h (by simp)
  | cons d tl =>
    cases tl with
    | nil => rw [hsp] at h; exact absurd h (by simp)
    | cons v tl2 =>
      rw [hsp] at h
      dsimp only at h
      cases hv : valueParse (pyStrip v) with
      | none => rw [hv] at h; exact absurd h (by simp)
      | some val =>
        rw [hv] at h
        simp only [Except.ok.injEq] at h
        rw [← h]
        exact ⟨rfl, rfl, rfl, rfl⟩

/-- A successful value-row step performs exactly the AC/DC assignment of
`applyVals` on the row's parsed value. -/
theorem parseRow_valueRow {st st' : ParseState} {r : String}
    (hd : docRowCond r = false) (hm : matchIndent 4 r = true)
    (h : parseRow st r = .ok st') :
    ∃ v, valueRowValue r = some v ∧
      st' = (if st.ac_value = none then
              { st with ac_value := some v, old_ac_value := some v }
            else
              { st with dc_value := some v, old_dc_value := some v }) := by
  unfold parseRow at h
  rw [hd] at h
  simp only [Bool.false_eq_true, if_false, hm, if_true] at h
  cases hsp : pySplit ':' r with
  | nil => rw [hsp] at h; exact absurd h (by simp)
  | cons d tl =>
    cases tl with
    | nil => rw [hsp] at h; exact absurd h (by simp)
    | cons v tl2 =>
      rw [hsp] at h
      dsimp only at h
      cases hv : parseIntHex (pyStrip v) with
      | none => rw [hv] at h; exact absurd h (by simp)
      | some value =>
        rw [hv] at h
        dsimp only at h
        refine ⟨value, ?_, ?_⟩
        · unfold valueRowValue
          rw [hsp]
          dsimp only
          exact hv
        · by_cases hn : st.ac_value = none
          · rw [if_pos hn] at h ⊢
            simp only [Except.ok.injEq] at h
            exact h.symm
          · rw [if_neg hn] at h ⊢
            simp only [Except.ok.injEq] at h
            exact h.symm

/-- A row in neither branch leaves the state unchanged. -/
theorem parseRow_other {st st' : ParseState} {r : String}
    (hd : docRowCond r = false) (hm : matchIndent 4 r = false)
    (h : parseRow st r = .ok st') : st' = st := by
  unfold parseRow at h
  rw [hd] at h
  simp only [Bool.false_eq_true, if_false, hm, Except.ok.injEq] at h
  exact h.symm

/-- The value fields after the row loop are those of `applyVals` on the
encountered value-row values. -/
theorem parseRows_valueFields : ∀ (rows : List String) (st st' : ParseState),
    parseRows st rows = .ok st' →
    st'.ac_value = (applyVals st (valsOf rows)).ac_value ∧
    st'.old_ac_value = (applyVals st (valsOf rows)).old_ac_value ∧
    st'.dc_value = (applyVals st (valsOf rows)).dc_value ∧
    st'.old_dc_value = (applyVals st (valsOf rows)).old_dc_value := by
  intro rows
  induction rows with
  | nil =>
    intro st st' h
    unfold parseRows at h
    simp only [Except.ok.injEq] at h
    rw [← h, valsOf_nil]
    exact ⟨rfl, rfl, rfl, rfl⟩
  | cons r rest ih =>
    intro st st' h
    unfold parseRows at h
    cases hpr : parseRow st r with
    | error e => rw [hpr] at h; exact absurd h (by simp)
    | ok st2 =>
      rw [hpr] at h
      dsimp only at h
      rw [valsOf_cons]
      by_cases hdoc : docRowCond r = true
      · have hvp : valueRowP r = false := by simp [valueRowP, hdoc]
        rw [hvp]
        simp only [Bool.false_eq_true, if_false]
        obtain ⟨q1, q2, q3, q4⟩ := parseRow_docRow hdoc hpr
        obtain ⟨c1, c2, c3, c4⟩ := applyVals_congr (valsOf rest) st2 st q1 q2 q3 q4
        obtain ⟨m1, m2, m3, m4⟩ := ih st2 st' h
        exact ⟨m1.trans c1, m2.trans c2, m3.trans c3, m4.trans c4⟩
      · have hdoc' : docRowCond r = false := by simpa using hdoc
        by_cases hm : matchIndent 4 r = true
        · have hvp : valueRowP r = true := by simp [valueRowP, hdoc', hm]
          rw [hvp, if_pos rfl]
          obtain ⟨v, hv, hst2⟩ := parseRow_valueRow hdoc' hm hpr
          rw [hv]
          obtain ⟨m1, m2, m3, m4⟩ := ih st2 st' h
          rw [hst2] at m1 m2 m3 m4
          exact ⟨m1, m2, m3, m4⟩
        · have hm' : matchIndent 4 r = false := by simpa using hm
          have hvp : valueRowP r = false := by simp [valueRowP, hm']
          rw [hvp]
          simp only [Bool.false_eq_true, if_false]
          have hst2 : st2 = st := parseRow_other hdoc' hm' hpr
          rw [hst2] at h
          exact ih st st' h

/-- **C2 (amended).** For a successfully parsed `Setting`, the first AC/DC
value row sets `ac_value`/`old_ac_value`, and the second *and every later*
value row sets `dc_value`/`old_dc_value` — a third or later value row is
not ignored, it overwrites the DC pair, so the last value row wins. -/
theorem ac_dc_value_rows (s : String) (st : Setting)
    (hok : Setting.ofString s = .ok st) :
    st.ac_value = (valsOf (pySplitLines s).tail).head? ∧
    st.old_ac_value = (valsOf (pySplitLines s).tail).head? ∧
    st.dc_value = (valsOf (pySplitLines s).tail).tail.getLast? ∧
    st.old_dc_value = (valsOf (pySplitLines s).tail).tail.getLast? := by
  obtain ⟨ps, hp, -, -, hac, hoac, hdc, hodc⟩ := Setting.ofString_ok hok
  obtain ⟨m1, m2, m3, m4⟩ := parseRows_valueFields _ _ _ hp
  obtain ⟨i1, i2, i3, i4⟩ := applyVals_initState (valsOf (pySplitLines s).tail)
  exact ⟨hac.trans (m1.trans i1), hoac.trans (m2.trans i2),
         hdc.trans (m3.trans i3), hodc.trans (m4.trans i4)⟩

/-- A setting block with three AC/DC value rows (`0x1`, `0x2`, `0x3`). -/
def exText3vals : String :=
  "    Power Setting GUID: 29f6c1db-86da-48c5-9fdb-f2b67b1f44da  (Three rows)\n" ++
  "      Possible Setting Index: 000\n" ++
  "      Possible Setting Friendly Name: Off\n" ++
  "    First Current Index: 0x00000001\n" ++
  "    Second Current Index: 0x00000002\n" ++
  "    Third Current Index: 0x00000003"

/-- The same block without the third value row. -/
def exText2vals : String :=
  "    Power Setting GUID: 29f6c1db-86da-48c5-9fdb-f2b67b1f44da  (Three rows)\n" ++
  "      Possible Setting Index: 000\n" ++
  "      Possible Setting Friendly Name: Off\n" ++
  "    First Current Index: 0x00000001\n" ++
  "    Second Current Index: 0x00000002"

/-- The `Setting` parsed from `exText3vals`. -/
def exSetting3 : Setting :=
  ⟨some "29f6c1db-86da-48c5-9fdb-f2b67b1f44da", some "Three rows",
   [⟨"Possible Setting Index", "000"⟩, ⟨"Possible Setting Friendly Name", "Off"⟩],
   some 1, some 1, some 3, some 3, 1, [0]⟩

/-- Witness for `ac_dc_value_rows` at the concrete three-value-row block:
`ac_value = 1` (first row) and `dc_value = 3` (last row). -/
theorem ac_dc_value_rows_witness :
    exSetting3.ac_value = (valsOf (pySplitLines exText3vals).tail).head? ∧
    exSetting3.old_ac_value = (valsOf (pySplitLines exText3vals).tail).head? ∧
    exSetting3.dc_value = (valsOf (pySplitLines exText3vals).tail).tail.getLast? ∧
    exSetting3.old_dc_value = (valsOf (pySplitLines exText3vals).tail).tail.getLast? :=
  ac_dc_value_rows exText3vals exSetting3 (by decide)

/-- **C2 counterexample.** The claim says a third indent-4 value row is
silently ignored (changing neither `ac_value` nor `dc_value`).  In fact the
two-row block parses with `dc_value = 2` but adding the third row `0x3`
yields `dc_value = 3`: the third row overwrote `dc_value`. -/
theorem third_value_row_overwrites_dc :
    (Setting.ofString exText2vals).map (fun st => (st.ac_value, st.dc_value)) =
      .ok (some 1, some 2) ∧
    (Setting.ofString exText3vals).map (fun st => (st.ac_value, st.dc_value)) =
      .ok (some 1, some 3) := by
  constructor <;> decide

/-! ## Documentation rows of `Setting._parse` -/

/-- **C8 (amended).** A row is handled by the documentation branch exactly
when it is at indentation level 6 and does not contain the literal
substring `'GUID'` (the code tests `rows[i].find('GUID')`, not the GUID
pattern).  Such a row is stripped as a whole and split on *every* colon:
the description is the segment before the first colon (not trimmed again,
so spaces before the colon survive), the raw value is the segment between
the first and second colons (the whole remainder only when there is exactly
one colon), trimmed and normalized (`0x…` → decimal string, else passed
through unchanged), and the pair is appended to `doc` in encounter order;
rows outside the documentation branch never change `doc`. -/
theorem doc_row_handling :
    (∀ (st : ParseState) (r d v : String) (tl : List String) (val : String),
        docRowCond r = true →
        pySplit ':' (pyStrip r) = d :: v :: tl →
        valueParse (pyStrip v) = some val →
        parseRow st r = .ok { st with doc := st.doc ++ [⟨d, val⟩] }) ∧
    (∀ (st st' : ParseState) (r : String),
        docRowCond r = false → parseRow st r = .ok st' → st'.doc = st.doc) ∧
    (∀ v : String, pyStartsWith "0x" v = false → valueParse v = some v) := by
  refine ⟨?_, ?_, ?_⟩
  · intro st r d v tl val hd hsp hval
    unfold parseRow
    rw [if_pos hd, hsp]
    dsimp only
    rw [hval]
  · intro st st' r hd h
    by_cases hm : matchIndent 4 r = true
    · obtain ⟨v, -, hst⟩ := parseRow_valueRow hd hm h
      rw [hst]
      by_cases hn : st.ac_value = none
      · rw [if_pos hn]
      · rw [if_neg hn]
    · rw [parseRow_other hd (by simpa using hm) h]
  · intro v h
    unfold valueParse
    rw [h]
    simp

/-- Witness for `doc_row_handling` at concrete rows: a doc row with a
space before the colon and a second colon inside the value; a value row,
which leaves `doc` unchanged; a plain non-`0x` value. -/
theorem doc_row_handling_witness :
    parseRow initState "      Timeout : 10:30" =
      .ok ⟨[⟨"Timeout ", "10"⟩], none, none, none, none⟩ ∧
    (⟨[], some 1, some 1, none, none⟩ : ParseState).doc = initState.doc ∧
    valueParse "Off" = some "Off" := by
  refine ⟨?_, ?_, ?_⟩
  · exact doc_row_handling.1 initState "      Timeout : 10:30" "Timeout " " 10"
      ["30"] "10" (by decide) (by decide) (by decide)
  · exact doc_row_handling.2.1 initState ⟨[], some 1, some 1, none, none⟩
      "    Current AC Power Setting Index: 0x00000001" (by decide) (by decide)
  · exact doc_row_handling.2.2 "Off" (by decide)

/-- A setting block with a doc row whose value holds a second colon and a
doc row carrying a GUID pattern but not the literal substring `'GUID'`. -/
def exText8 : String :=
  "    Power Setting GUID: 29f6c1db-86da-48c5-9fdb-f2b67b1f44da  (Doc rows)\n" ++
  "      Timeout : 10:30\n" ++
  "      Option value: 12345678-1234-1234-1234-123456789abc\n" ++
  "    Current AC Power Setting Index: 0x00000001\n" ++
  "    Current DC Power Setting Index: 0x00000002"

/-- **C8 counterexample.** Against the claim: (i) the row carrying a GUID
pattern (but not the literal `'GUID'`) *is* recorded as a documentation
row; (ii) the description keeps its trailing space (`"Timeout "`, not
trimmed); (iii) the raw value of `"Timeout : 10:30"` is the segment
between the first two colons (`"10"`), not the whole right part
(`"10:30"`). -/
theorem doc_row_cex :
    (Setting.ofString exText8).map Setting.doc =
      .ok [⟨"Timeout ", "10"⟩,
           ⟨"Option value", "12345678-1234-1234-1234-123456789abc"⟩] ∧
    (extractGuid "      Option value: 12345678-1234-1234-1234-123456789abc").isSome
      = true := by
  constructor <;> decide

/-! ## Lemmas on the block-splitting scan -/

theorem splitFoldSeg_snoc (isDelim : String → Bool) (rows : List String) :
    ∀ (len a : Nat) (st : Option Nat × List (List String)),
    splitFoldSeg isDelim rows st a (len + 1) =
      splitStep isDelim rows (splitFoldSeg isDelim rows st a len) (a + len) := by
  intro len
  induction len with
  | zero => intro a st; rfl
  | succ len ih =>
    intro a st
    show splitFoldSeg isDelim rows (splitStep isDelim rows st a) (a + 1) (len + 1) = _
    rw [ih (a + 1) (splitStep isDelim rows st a),
        show a + 1 + len = a + (len + 1) from by omega]
    rfl

theorem splitFoldSeg_add (isDelim : String → Bool) (rows : List String) :
    ∀ (m k : Nat) (st : Option Nat × List (List String)) (a : Nat),
    splitFoldSeg isDelim rows st a (m + k) =
      splitFoldSeg isDelim rows (splitFoldSeg isDelim rows st a m) (a + m) k := by
  intro m
  induction m with
  | zero => intro k st a; rw [Nat.zero_add]; rfl
  | succ m ih =>
    intro k st a
    rw [show m + 1 + k = (m + k) + 1 from by omega]
    show splitFoldSeg isDelim rows (splitStep isDelim rows st a) (a + 1) (m + k) = _
    rw [ih k (splitStep isDelim rows st a) (a + 1),
        show a + 1 + m = a + (m + 1) from by omega]
    rfl

theorem splitStep_open (isDelim : String → Bool) (rows : List String) (i : Nat)
    (acc : List (List String)) (h : isDelim (rows.getD i "") = true) :
    splitStep isDelim rows (none, acc) i = (some i, acc) := by
  unfold splitStep
  simp only [List.getD_eq_getElem?_getD] at h
  simp [h]

theorem splitStep_close (isDelim : String → Bool) (rows : List String) (i s : Nat)
    (acc : List (List String)) (h : isDelim (rows.getD i "") = true) :
    splitStep isDelim rows (some s, acc) i =
      (some i, acc ++ [(rows.drop s).take (i - s)]) := by
  unfold splitStep
  simp only [List.getD_eq_getElem?_getD] at h
  simp [h]

theorem splitStep_skip (isDelim : String → Bool) (rows : List String) (i : Nat)
    (st : Option Nat × List (List String))
    (h : isDelim (rows.getD i "") = false) (hl : i ≠ rows.length - 1) :
    splitStep isDelim rows st i = st := by
  unfold splitStep
  simp only [List.getD_eq_getElem?_getD] at h
  simp [h, hl]

theorem splitStep_last (isDelim : String → Bool) (rows : List String) (i s : Nat)
    (acc : List (List String))
    (h : isDelim (rows.getD i "") = false) (hl : i = rows.length - 1) :
    splitStep isDelim rows (some s, acc) i = (some i, acc ++ [rows.drop s]) := by
  subst hl
  unfold splitStep
  simp only [List.getD_eq_getElem?_getD] at h
  have hall : (rows.drop s).take (rows.length - s) = rows.drop s := by
    rw [← List.length_drop, List.take_length]
  simp [h, hall]

theorem splitFoldSeg_skipRun (isDelim : String → Bool) (rows : List String) :
    ∀ (m a s : Nat) (acc : List (List String)),
    (∀ j, j < m → isDelim (rows.getD (a + j) "") = false) →
    a + m < rows.length →
    splitFoldSeg isDelim rows (some s, acc) a m = (some s, acc) := by
  intro m
  induction m with
  | zero => intro a s acc _ _; rfl
  | succ m ih =>
    intro a s acc hnd hlt
    show splitFoldSeg isDelim rows (splitStep isDelim rows (some s, acc) a) (a + 1) m = _
    rw [splitStep_skip isDelim rows a (some s, acc)
          (by simpa using hnd 0 (by omega)) (by omega)]
    exact ih (a + 1) s acc
      (fun j hj => by
        have h := hnd (j + 1) (by omega)
        rw [show a + 1 + j = a + (j + 1) from by omega]
        exact h)
      (by omega)

theorem splitFoldSeg_finalRun (isDelim : String → Bool) (rows : List String) :
    ∀ (m a s : Nat) (acc : List (List String)),
    (∀ j, j < m → isDelim (rows.getD (a + j) "") = false) →
    1 ≤ m → a + m = rows.length →
    splitFoldSeg isDelim rows (some s, acc) a m =
      (some (rows.length - 1), acc ++ [rows.drop s]) := by
  intro m
  induction m with
  | zero => intro a s acc _ h1 _; exact absurd h1 (by omega)
  | succ m ih =>
    intro a s acc hnd _ hsum
    cases Nat.eq_zero_or_pos m with
    | inl hm0 =>
      subst hm0
      show splitFoldSeg isDelim rows (splitStep isDelim rows (some s, acc) a) (a + 1) 0 = _
      rw [splitStep_last isDelim rows a s acc
            (by simpa using hnd 0 (by omega)) (by omega)]
      rw [show a = rows.length - 1 from by omega]
      rfl
    | inr hmpos =>
      show splitFoldSeg isDelim rows (splitStep isDelim rows (some s, acc) a) (a + 1) m = _
      rw [splitStep_skip isDelim rows a (some s, acc)
            (by simpa using hnd 0 (by omega)) (by omega)]
      exact ih (a + 1) s acc
        (fun j hj => by
          have h := hnd (j + 1) (by omega)
          rw [show a + 1 + j = a + (j + 1) from by omega]
          exact h)
        hmpos (by omega)

theorem getD_of_drop (rows l : List String) (a : Nat) (h : rows.drop a = l)
    (j : Nat) : rows.getD (a + j) "" = l.getD j "" := by
  rw [List.getD_eq_getElem?_getD, List.getD_eq_getElem?_getD,
      ← List.getElem?_drop, h]

/-- The rows of one child sub-block: its delimiter header followed by its
body rows. -/
def blockRows (b : String × List String) : List String := b.1 :: b.2

/-- Scanning a run of well-formed sub-blocks from a header position, with a
block already open at `s`: the open block is closed with the slice
`rows[s:a]` and every sub-block becomes one child block, the last one
closed at the end of the rows. -/
theorem splitFoldSeg_blocks (isDelim : String → Bool) (rows : List String) :
    ∀ (bs : List (String × List String)) (a s : Nat) (acc : List (List String)),
    (∀ b ∈ bs, isDelim b.1 = true ∧ ∀ r ∈ b.2, isDelim r = false) →
    bs ≠ [] →
    (∀ bl, bs.getLast? = some bl → bl.2 ≠ []) →
    rows.drop a = (bs.map blockRows).flatten →
    splitFoldSeg isDelim rows (some s, acc) a ((bs.map blockRows).flatten).length =
      (some (rows.length - 1),
       acc ++ [(rows.drop s).take (a - s)] ++ bs.map blockRows) := by
  intro bs
  induction bs with
  | nil => intro a s acc _ hne _ _; exact absurd rfl hne
  | cons b bs' ih =>
    intro a s acc hwf _ hlast hdrop
    simp only [List.map_cons, List.flatten_cons] at hdrop ⊢
    have hhead : rows.getD a "" = b.1 := by
      have h0 := getD_of_drop rows _ a hdrop 0
      simpa [blockRows] using h0
    have hdelim : isDelim (rows.getD a "") = true := by
      rw [hhead]; exact (hwf b (by simp)).1
    have hbody : ∀ j, j < b.2.length →
        isDelim (rows.getD (a + 1 + j) "") = false := by
      intro j hj
      have h1 := getD_of_drop rows _ a hdrop (1 + j)
      rw [show a + 1 + j = a + (1 + j) from by omega, h1,
          List.getD_append _ _ _ _ (by simp [blockRows]; omega)]
      have h2 : (blockRows b).getD (1 + j) "" = b.2.getD j "" := by
        show (b.1 :: b.2).getD (1 + j) "" = _
        rw [show 1 + j = j + 1 from by omega, List.getD_cons_succ]
      rw [h2, List.getD_eq_getElem b.2 "" hj]
      exact (hwf b (by simp)).2 _ (List.getElem_mem hj)
    have hlenB : (blockRows b).length = b.2.length + 1 := by simp [blockRows]
    have hlen : a + ((blockRows b).length +
        ((bs'.map blockRows).flatten).length) = rows.length := by
      have h1 := List.length_drop a rows
      rw [hdrop, List.length_append] at h1
      omega
    cases bs' with
    | nil =>
      have hb2 : b.2 ≠ [] := hlast b (by simp)
      have hb2len : 1 ≤ b.2.length := List.length_pos.mpr hb2
      simp only [List.map_nil, List.flatten_nil, List.append_nil,
                 List.length_nil] at hdrop hlen ⊢
      rw [hlenB]
      show splitFoldSeg isDelim rows
        (splitStep isDelim rows (some s, acc) a) (a + 1) b.2.length = _
      rw [splitStep_close isDelim rows a s acc hdelim]
      rw [splitFoldSeg_finalRun isDelim rows b.2.length (a + 1) a
            (acc ++ [(rows.drop s).take (a - s)]) hbody hb2len (by omega)]
      rw [hdrop]
    | cons b' bs'' =>
      have hLpos : 1 ≤ (((b' :: bs'').map blockRows).flatten).length := by
        simp [blockRows]
      rw [List.length_append, splitFoldSeg_add]
      have hinner : splitFoldSeg isDelim rows (some s, acc) a (blockRows b).length =
          (some a, acc ++ [(rows.drop s).take (a - s)]) := by
        rw [hlenB]
        show splitFoldSeg isDelim rows
          (splitStep isDelim rows (some s, acc) a) (a + 1) b.2.length = _
        rw [splitStep_close isDelim rows a s acc hdelim]
        exact splitFoldSeg_skipRun isDelim rows b.2.length (a + 1) a
          (acc ++ [(rows.drop s).take (a - s)]) hbody (by omega)
      rw [hinner]
      have hdrop' : rows.drop (a + (blockRows b).length) =
          ((b' :: bs'').map blockRows).flatten := by
        rw [← List.drop_drop, hdrop, List.drop_left]
      have := ih (a + (blockRows b).length) a
        (acc ++ [(rows.drop s).take (a - s)])
        (fun x hx => hwf x (by simp [hx]))
        (by simp)
        (fun bl hbl => hlast bl (by rw [← hbl]; exact List.getLast?_cons_cons))
        hdrop'
      rw [this]
      have htake : (rows.drop a).take (a + (blockRows b).length - a) = blockRows b := by
        rw [show a + (blockRows b).length - a = (blockRows b).length from by omega,
            hdrop, List.take_left]
      rw [htake]
      simp

/-- A row list consisting of consecutive well-formed sub-blocks (each a
delimiter header followed by non-delimiter body rows, the last body
nonempty) splits into exactly those sub-blocks, in order. -/
theorem splitBlocks_blocks (isDelim : String → Bool)
    (bs : List (String × List String))
    (hwf : ∀ b ∈ bs, isDelim b.1 = true ∧ ∀ r ∈ b.2, isDelim r = false)
    (hne : bs ≠ [])
    (hlast : ∀ bl, bs.getLast? = some bl → bl.2 ≠ []) :
    splitBlocks isDelim ((bs.map blockRows).flatten) = bs.map blockRows := by
  cases bs with
  | nil => exact absurd rfl hne
  | cons b bs' =>
    simp only [List.map_cons, List.flatten_cons]
    unfold splitBlocks splitFold
    have hdelim0 :
        isDelim ((blockRows b ++ (bs'.map blockRows).flatten).getD 0 "") = true := by
      have h0 : (blockRows b ++ (bs'.map blockRows).flatten).getD 0 "" = b.1 := by
        simp [blockRows]
      rw [h0]
      exact (hwf b (by simp)).1
    have hbody : ∀ j, j < b.2.length →
        isDelim ((blockRows b ++ (bs'.map blockRows).flatten).getD (1 + j) "")
          = false := by
      intro j hj
      have h1 : (blockRows b ++ (bs'.map blockRows).flatten).getD (1 + j) ""
          = b.2.getD j "" := by
        rw [show (1 : Nat) + j = j + 1 from by omega]
        show ((b.1 :: b.2) ++ _).getD (j + 1) "" = _
        rw [List.cons_append, List.getD_cons_succ, List.getD_append _ _ _ _ hj]
      rw [h1, List.getD_eq_getElem b.2 "" hj]
      exact (hwf b (by simp)).2 _ (List.getElem_mem hj)
    have hlenR : (blockRows b ++ (bs'.map blockRows).flatten).length
        = (b.2.length + ((bs'.map blockRows).flatten).length) + 1 := by
      rw [List.length_append]
      simp [blockRows]
      omega
    rw [hlenR]
    show (splitFoldSeg isDelim (blockRows b ++ (bs'.map blockRows).flatten)
      (splitStep isDelim (blockRows b ++ (bs'.map blockRows).flatten) (none, []) 0)
      1 (b.2.length + ((bs'.map blockRows).flatten).length)).2 = _
    rw [splitStep_open isDelim (blockRows b ++ (bs'.map blockRows).flatten) 0 []
          hdelim0]
    cases bs' with
    | nil =>
      have hb2 : b.2 ≠ [] := hlast b (by simp)
      rw [splitFoldSeg_finalRun isDelim
            (blockRows b ++ ((List.map blockRows []).flatten))
            (b.2.length + ((List.map blockRows []).flatten).length) 1 0 []
            (fun j hj => hbody j (by simpa using hj))
            (by simpa using List.length_pos.mpr hb2)
            (by rw [hlenR]; omega)]
      simp [blockRows]
    | cons b' bs'' =>
      have hLpos : 1 ≤ (((b' :: bs'').map blockRows).flatten).length := by
        simp [blockRows]
      rw [splitFoldSeg_add isDelim
            (blockRows b ++ (((b' :: bs'').map blockRows).flatten))
            b.2.length ((((b' :: bs'').map blockRows).flatten)).length
            (some 0, []) 1]
      rw [splitFoldSeg_skipRun isDelim
            (blockRows b ++ (((b' :: bs'').map blockRows).flatten))
            b.2.length 1 0 [] hbody (by rw [hlenR]; omega)]
      rw [splitFoldSeg_blocks isDelim
            (blockRows b ++ (((b' :: bs'').map blockRows).flatten))
            (b' :: bs'') (1 + b.2.length) 0 []
            (fun x hx => hwf x (by simp [hx]))
            (by simp)
            (fun bl hbl => hlast bl (by rw [← hbl]; exact List.getLast?_cons_cons))
            (by rw [show 1 + b.2.length = (blockRows b).length from by
                      simp [blockRows]; omega]
                exact List.drop_left _ _)]
      have htake : (((blockRows b ++ (((b' :: bs'').map blockRows).flatten))).drop 0).take
          (1 + b.2.length - 0) = blockRows b := by
        rw [List.drop_zero,
            show 1 + b.2.length - 0 = (blockRows b).length from by
              simp [blockRows]; omega,
            List.take_left]
      rw [htake]
      simp

/-- **C1 (amended).** First conjunct: if the scan reaches the last row with
a block open *and the last row is not itself a delimiter row*, the block is
closed at the end of the row list — the final child block is `rows[start:]`,
which includes the last row — and appended after the blocks already
produced.  Second conjunct: a row list consisting of exactly three
consecutive child sub-blocks delimited by three delimiter headers, the
third sub-block having at least one row beyond its header, yields exactly
three children in original order, each instantiated from only its own rows
(instantiate `isDelim := settingDelim, f := Setting.ofString` for
`SubGroup._parse` and `isDelim := subgroupDelim, f := SubGroup.ofString`
for `Scheme._parse`). -/
theorem split_last_row_and_three_blocks {α : Type} :
    (∀ (isDelim : String → Bool) (rows : List String) (s : Nat),
        rows ≠ [] →
        (splitFold isDelim rows (rows.length - 1)).1 = some s →
        isDelim (rows.getD (rows.length - 1) "") = false →
        splitBlocks isDelim rows =
          (splitFold isDelim rows (rows.length - 1)).2 ++ [rows.drop s]) ∧
    (∀ (isDelim : String → Bool) (f : String → Except PyErr α)
       (hd1 hd2 hd3 : String) (b1 b2 b3 : List String) (c1 c2 c3 : α),
        isDelim hd1 = true → isDelim hd2 = true → isDelim hd3 = true →
        (∀ r ∈ b1, isDelim r = false) → (∀ r ∈ b2, isDelim r = false) →
        (∀ r ∈ b3, isDelim r = false) → b3 ≠ [] →
        f (pyJoin "\n" (hd1 :: b1)) = .ok c1 →
        f (pyJoin "\n" (hd2 :: b2)) = .ok c2 →
        f (pyJoin "\n" (hd3 :: b3)) = .ok c3 →
        parseChildren isDelim f ((hd1 :: b1) ++ ((hd2 :: b2) ++ (hd3 :: b3))) =
          .ok [c1, c2, c3]) := by
  constructor
  · intro isDelim rows s hne hopen hnd
    have hn : 1 ≤ rows.length := List.length_pos.mpr hne
    unfold splitBlocks
    conv_lhs => rw [show rows.length = (rows.length - 1) + 1 from by omega]
    unfold splitFold
    rw [splitFoldSeg_snoc isDelim rows (rows.length - 1) 0 (none, []), Nat.zero_add]
    have hpair : splitFoldSeg isDelim rows (none, []) 0 (rows.length - 1) =
        (some s, (splitFold isDelim rows (rows.length - 1)).2) := by
      rw [← hopen]
      rfl
    rw [hpair, splitStep_last isDelim rows (rows.length - 1) s
          (splitFold isDelim rows (rows.length - 1)).2 hnd rfl]
  · intro isDelim f hd1 hd2 hd3 b1 b2 b3 c1 c2 c3 h1 h2 h3 hb1 hb2 hb3 hne3
      hf1 hf2 hf3
    have hsplit : splitBlocks isDelim ((hd1 :: b1) ++ ((hd2 :: b2) ++ (hd3 :: b3)))
        = [hd1 :: b1, hd2 :: b2, hd3 :: b3] := by
      have h := splitBlocks_blocks isDelim [(hd1, b1), (hd2, b2), (hd3, b3)]
        (by intro x hx
            simp only [List.mem_cons, List.not_mem_nil, or_false] at hx
            rcases hx with rfl | rfl | rfl
            · exact ⟨h1, hb1⟩
            · exact ⟨h2, hb2⟩
            · exact ⟨h3, hb3⟩)
        (by simp)
        (by intro bl hbl
            simp only [List.getLast?_cons_cons, List.getLast?_singleton,
              Option.some.injEq] at hbl
            rw [← hbl]
            exact hne3)
      simpa [blockRows] using h
    unfold parseChildren
    rw [hsplit]
    unfold mapChildren
    rw [hf1]
    unfold mapChildren
    rw [hf2]
    unfold mapChildren
    rw [hf3]
    rfl

/-- Rows of a subgroup body whose last row is itself a delimiter row. -/
def exRowsTrailing : List String :=
  ["    Power Setting GUID: 29f6c1db-86da-48c5-9fdb-f2b67b1f44da  (A)",
   "      some doc row",
   "    Power Setting GUID: 94ac6d29-73ce-41a6-809f-6363ba21b47e  (B)"]

/-- **C1 counterexample.** On `exRowsTrailing` the scan reaches the last
row with a block open (opened at row 0), yet no block is closed at the end
of the row list: the only child block produced is `[row0, row1]`, which
excludes the last row (the last row equals neither of its rows), and the
block reopened at the last row produces no child at all — against the
claim that the open block is closed inclusive of the last row with a final
child instantiated from it. -/
theorem split_last_row_cex :
    (splitFold settingDelim exRowsTrailing 2).1 = some 0 ∧
    settingDelim (exRowsTrailing.getD 2 "") = true ∧
    splitBlocks settingDelim exRowsTrailing =
      [["    Power Setting GUID: 29f6c1db-86da-48c5-9fdb-f2b67b1f44da  (A)",
        "      some doc row"]] ∧
    (exRowsTrailing.getD 2 ""
      == "    Power Setting GUID: 29f6c1db-86da-48c5-9fdb-f2b67b1f44da  (A)")
      = false ∧
    (exRowsTrailing.getD 2 "" == "      some doc row") = false := by
  refine ⟨?_, ?_, ?_, ?_, ?_⟩ <;> decide

/-- The three sub-blocks used in the `split_last_row_and_three_blocks`
witness: headers and bodies of the three concrete setting blocks. -/
def exH1 : String :=
  "    Power Setting GUID: 29f6c1db-86da-48c5-9fdb-f2b67b1f44da  (Sleep after)"

def exB1 : List String :=
  ["      Minimum Possible Setting: 0x00000000",
   "      Maximum Possible Setting: 0x0000000f",
   "    Current AC Power Setting Index: 0x00000007",
   "    Current DC Power Setting Index: 0x00000003"]

def exH2 : String :=
  "    Power Setting GUID: 51dea550-bb38-4bc4-991b-eacf37be5ec8  (Lid action)"

def exB2 : List String :=
  ["      First Possible Setting: 15",
   "      Second Possible Setting: 3",
   "    Current AC Power Setting Index: 0x00000005",
   "    Current DC Power Setting Index: 0x00000005"]

def exH3 : String :=
  "    Power Setting GUID: 94ac6d29-73ce-41a6-809f-6363ba21b47e  (Hybrid sleep)"

def exB3 : List String :=
  ["      Possible Setting Index: 000",
   "      Possible Setting Friendly Name: Off",
   "      Possible Setting Index: 001",
   "      Possible Setting Index: 001",
   "    Current AC Power Setting Index: 0x00000001",
   "    Current DC Power Setting Index: 0x00000000"]

/-- Witness for `split_last_row_and_three_blocks`: a concrete two-row list
closing its open block at the end, and a concrete subgroup body of three
setting sub-blocks parsing to exactly the three expected `Setting`s. -/
theorem split_last_row_and_three_blocks_witness :
    (splitBlocks settingDelim [exH1, "      some doc row"] =
      (splitFold settingDelim [exH1, "      some doc row"] 1).2 ++
        [[exH1, "      some doc row"].drop 0]) ∧
    parseChildren settingDelim Setting.ofString
        ((exH1 :: exB1) ++ ((exH2 :: exB2) ++ (exH3 :: exB3))) =
      .ok [exSetting, exSettingDesc, exSettingList] := by
  constructor
  · exact (@split_last_row_and_three_blocks Setting).1 settingDelim
      [exH1, "      some doc row"] 0 (by decide) (by decide) (by decide)
  · exact (@split_last_row_and_three_blocks Setting).2 settingDelim Setting.ofString
      exH1 exH2 exH3 exB1 exB2 exB3 exSetting exSettingDesc exSettingList
      (by decide) (by decide) (by decide) (by decide) (by decide) (by decide)
      (by decide) (by decide) (by decide) (by decide)

/-! ## Restore loops -/

/-- When every setting's GUID is found and restores successfully, the
settings loop restores them all. -/
theorem loadSettingsLoop_ok (dict : List (Option String × SettingJson)) :
    ∀ (ss ss' : List Setting),
    List.Forall₂ (fun s s' => ∃ js, pyDictGet dict s.guid = some js ∧
      s.loadFromJson js = .ok s') ss ss' →
    loadSettingsLoop dict ss = .ok ss' := by
  intro ss
  induction ss with
  | nil => intro ss' h; cases h; rfl
  | cons s rest ih =>
    intro ss' h
    cases h with
    | cons h1 h2 =>
      obtain ⟨js, hjs, hload⟩ := h1
      unfold loadSettingsLoop
      rw [hjs]
      dsimp only
      rw [hload]
      dsimp only
      rw [ih _ h2]

/-- The first missing GUID raises `KeyError` out of the settings loop:
settings before it keep their restored values, the missing one and all
later ones are left untouched. -/
theorem loadSettingsLoop_missing (dict : List (Option String × SettingJson)) :
    ∀ (done done' : List Setting) (miss : Setting) (rest : List Setting),
    List.Forall₂ (fun s s' => ∃ js, pyDictGet dict s.guid = some js ∧
      s.loadFromJson js = .ok s') done done' →
    pyDictGet dict miss.guid = none →
    loadSettingsLoop dict (done ++ miss :: rest) =
      .error (.keyError, done' ++ miss :: rest) := by
  intro done
  induction done with
  | nil =>
    intro done' miss rest hf hmiss
    cases hf
    show loadSettingsLoop dict (miss :: rest) = _
    unfold loadSettingsLoop
    rw [hmiss]
    rfl
  | cons s dtl ih =>
    intro done' miss rest hf hmiss
    cases hf with
    | cons h1 h2 =>
      obtain ⟨js, hjs, hload⟩ := h1
      show loadSettingsLoop dict (s :: (dtl ++ miss :: rest)) = _
      unfold loadSettingsLoop
      rw [hjs]
      dsimp only
      rw [hload]
      dsimp only
      rw [ih _ _ _ h2 hmiss]
      rfl

/-- A non-`KeyError` failure while restoring a setting propagates out of
the settings loop, carrying the partially restored list. -/
theorem loadSettingsLoop_err (dict : List (Option String × SettingJson)) :
    ∀ (done done' : List Setting) (s s' : Setting) (e : PyErr)
      (js : SettingJson) (rest : List Setting),
    List.Forall₂ (fun s s' => ∃ js, pyDictGet dict s.guid = some js ∧
      s.loadFromJson js = .ok s') done done' →
    pyDictGet dict s.guid = some js →
    s.loadFromJson js = .error (e, s') →
    loadSettingsLoop dict (done ++ s :: rest) =
      .error (e, done' ++ s' :: rest) := by
  intro done
  induction done with
  | nil =>
    intro done' s s' e js rest hf hjs hload
    cases hf
    show loadSettingsLoop dict (s :: rest) = _
    unfold loadSettingsLoop
    rw [hjs]
    dsimp only
    rw [hload]
    rfl
  | cons x dtl ih =>
    intro done' s s' e js rest hf hjs hload
    cases hf with
    | cons h1 h2 =>
      obtain ⟨jx, hjx, hloadx⟩ := h1
      show loadSettingsLoop dict (x :: (dtl ++ s :: rest)) = _
      unfold loadSettingsLoop
      rw [hjx]
      dsimp only
      rw [hloadx]
      dsimp only
      rw [ih _ _ _ _ _ _ h2 hjs hload]
      rfl

/-- The subgroups loop of `Scheme.load_from_json`: every subgroup whose
GUID is missing is skipped unchanged, every other one is restored. -/
theorem loadSubgroupsLoop_ok (dict : List (Option String × SubGroupJson)) :
    ∀ (gs gs' : List SubGroup),
    List.Forall₂ (fun g g' =>
      (pyDictGet dict g.guid = none ∧ g' = g) ∨
      (∃ jg, pyDictGet dict g.guid = some jg ∧ g.loadFromJson jg = .ok g'))
      gs gs' →
    loadSubgroupsLoop dict gs = .ok gs' := by
  intro gs
  induction gs with
  | nil => intro gs' h; cases h; rfl
  | cons g rest ih =>
    intro gs' h
    cases h with
    | cons h1 h2 =>
      unfold loadSubgroupsLoop
      rcases h1 with ⟨hmiss, rfl⟩ | ⟨jg, hjg, hload⟩
      · rw [hmiss]
        dsimp only
        rw [ih _ h2]
      · rw [hjg]
        dsimp only
        rw [hload]
        dsimp only
        rw [ih _ h2]

/-- **C6 (amended).** During restore: (A) at the `Scheme` level, a subgroup
whose GUID key is absent is silently skipped and left untouched while all
other subgroups are still restored; (B) at the `SubGroup` level, however,
the first setting whose GUID key is absent silently ends restoration of
that whole subgroup — earlier settings keep their restored values, the
missing one *and every later one* are left untouched, with no error; (C) a
non-`KeyError` fault while restoring a setting propagates. -/
theorem missing_key_handling :
    (∀ (sc : Scheme) (j : SchemeJson) (gs' : List SubGroup),
        j.guid = sc.guid →
        List.Forall₂ (fun g g' =>
          (pyDictGet j.subgroups g.guid = none ∧ g' = g) ∨
          (∃ jg, pyDictGet j.subgroups g.guid = some jg ∧
            g.loadFromJson jg = .ok g')) sc.subgroups gs' →
        sc.loadFromJson j = .ok { sc with subgroups := gs' }) ∧
    (∀ (g : SubGroup) (j : SubGroupJson) (done done' : List Setting)
       (miss : Setting) (rest : List Setting),
        g.settings = done ++ miss :: rest →
        List.Forall₂ (fun s s' => ∃ js, pyDictGet j.settings s.guid = some js ∧
          s.loadFromJson js = .ok s') done done' →
        pyDictGet j.settings miss.guid = none →
        g.loadFromJson j = .ok { g with settings := done' ++ miss :: rest }) ∧
    (∀ (g : SubGroup) (j : SubGroupJson) (done done' : List Setting)
       (s s' : Setting) (e : PyErr) (js : SettingJson) (rest : List Setting),
        g.settings = done ++ s :: rest →
        List.Forall₂ (fun s s' => ∃ js, pyDictGet j.settings s.guid = some js ∧
          s.loadFromJson js = .ok s') done done' →
        pyDictGet j.settings s.guid = some js →
        s.loadFromJson js = .error (e, s') →
        e ≠ .keyError →
        g.loadFromJson j =
          .error (e, { g with settings := done' ++ s' :: rest })) := by
  refine ⟨?_, ?_, ?_⟩
  · intro sc j gs' hguid hf
    unfold Scheme.loadFromJson
    rw [if_neg (by simp [hguid])]
    rw [loadSubgroupsLoop_ok j.subgroups sc.subgroups gs' hf]
  · intro g j done done' miss rest hset hf hmiss
    unfold SubGroup.loadFromJson
    rw [hset, loadSettingsLoop_missing j.settings done done' miss rest hf hmiss]
  · intro g j done done' s s' e js rest hset hf hjs hload hne
    unfold SubGroup.loadFromJson
    rw [hset, loadSettingsLoop_err j.settings done done' s s' e js rest hf hjs hload]
    cases e with
    | keyError => exact absurd rfl hne
    | indexError => rfl
    | valueError => rfl
    | typeError => rfl
    | wrongSettingValue n gd v o t => rfl
    | wrongGuid => rfl

/-- A setting (`LIST {1, 2}`, current values `1`) used in the restore
examples. -/
def exSettingB : Setting :=
  ⟨some "b-guid", some "B", [], some 1, some 1, some 1, some 1, 1, [1, 2]⟩

/-- A persisted record for `exSettingB` with new, in-domain values `2`. -/
def exJsB : SettingJson := ⟨some "B", 1, [1, 2], some 2, some 2, []⟩

/-- A subgroup owning `exRange` (GUID `g-range`) then `exSettingB`. -/
def exSub6 : SubGroup := ⟨some "sg", none, [exRange, exSettingB]⟩

/-- A persisted record for `exSub6` that lacks the key `g-range` but does
carry a record for `b-guid`. -/
def exSubJson6 : SubGroupJson := ⟨none, [(some "b-guid", exJsB)]⟩

/-- **C6 counterexample.** The claim says a child with a missing GUID key
is skipped *while all other children are still restored*.  Restoring
`exSub6` from `exSubJson6`: the first setting's key `g-range` is missing,
and the subgroup comes back entirely unchanged — in particular the second
setting, whose key *is* present with persisted AC value `2`, still has AC
value `1`. -/
theorem subgroup_missing_key_cex :
    exSub6.loadFromJson exSubJson6 = .ok exSub6 ∧
    pyDictGet exSubJson6.settings exSettingB.guid = some exJsB ∧
    exJsB.ac_value = some 2 ∧
    exSettingB.ac_value = some 1 := by
  refine ⟨?_, ?_, ?_, ?_⟩ <;> decide

/-- A second subgroup (empty) and a scheme for the witness of
`missing_key_handling`. -/
def exSubEmpty : SubGroup := ⟨some "sg2", none, []⟩

/-- A scheme owning `exSub6` then `exSubEmpty`. -/
def exScheme6 : Scheme := ⟨some "sch", none, [exSub6, exSubEmpty]⟩

/-- A persisted record for `exScheme6` lacking the key `sg` but carrying an
(empty) record for `sg2`. -/
def exSchemeJson6 : SchemeJson :=
  ⟨some "sch", none, [(some "sg2", ⟨none, []⟩)]⟩

/-- Witness for `missing_key_handling` at concrete inputs: (A) the scheme
restore skips the missing subgroup `sg` and still processes `sg2`; (B) the
subgroup restore stops silently at the missing first key; (C) a
`WrongSettingValueException` from a setting propagates out of the
subgroup restore with the partial state. -/
theorem missing_key_handling_witness :
    exScheme6.loadFromJson exSchemeJson6 =
      .ok { exScheme6 with subgroups := [exSub6, exSubEmpty] } ∧
    exSub6.loadFromJson exSubJson6 =
      .ok { exSub6 with settings := [exRange, exSettingB] } ∧
    SubGroup.loadFromJson ⟨some "sg3", none, [exRange]⟩
        ⟨none, [(some "g-range", ⟨some "RangeSetting", 0, [0, 15], some 7, some 99, []⟩)]⟩ =
      .error (.wrongSettingValue (some "RangeSetting") (some "g-range") (some 99)
               [0, 15] "RANGE",
              { guid := some "sg3", name := none,
                settings := [{ exRange with ac_value := some 7 }] }) := by
  refine ⟨?_, ?_, ?_⟩
  · exact missing_key_handling.1 exScheme6 exSchemeJson6 [exSub6, exSubEmpty] rfl
      (List.Forall₂.cons (Or.inl ⟨by decide, rfl⟩)
        (List.Forall₂.cons (Or.inr ⟨⟨none, []⟩, by decide, by decide⟩)
          List.Forall₂.nil))
  · exact missing_key_handling.2.1 exSub6 exSubJson6 [] [] exRange [exSettingB]
      rfl List.Forall₂.nil (by decide)
  · exact missing_key_handling.2.2 ⟨some "sg3", none, [exRange]⟩
      ⟨none, [(some "g-range", ⟨some "RangeSetting", 0, [0, 15], some 7, some 99, []⟩)]⟩
      [] [] exRange { exRange with ac_value := some 7 }
      (.wrongSettingValue (some "RangeSetting") (some "g-range") (some 99)
        [0, 15] "RANGE")
      ⟨some "RangeSetting", 0, [0, 15], some 7, some 99, []⟩ []
      rfl List.Forall₂.nil (by decide) (by decide) (by decide)

/-! ## Round-trip through the persisted JSON -/

/-- Inserting a fresh key appends. -/
theorem pyDictInsert_new {α : Type} (d : List (Option String × α))
    (k : Option String) (v : α) (h : ∀ p ∈ d, p.1 ≠ k) :
    pyDictInsert d k v = d ++ [(k, v)] := by
  unfold pyDictInsert
  rw [if_neg]
  simp only [List.any_eq_true, decide_eq_true_eq, not_exists]
  intro p hp
  exact h p hp.1 hp.2

/-- Building a dict by repeated insertion over items with pairwise-distinct
keys yields the corresponding association list. -/
theorem foldl_pyDictInsert_eq {β γ : Type} (key : β → Option String)
    (val : β → γ) :
    ∀ (items : List β) (d : List (Option String × γ)),
    (∀ it ∈ items, ∀ p ∈ d, p.1 ≠ key it) →
    (items.map key).Nodup →
    items.foldl (fun d it => pyDictInsert d (key it) (val it)) d =
      d ++ items.map (fun it => (key it, val it)) := by
  intro items
  induction items with
  | nil => intro d _ _; simp
  | cons it rest ih =>
    intro d hfresh hnodup
    show rest.foldl _ (pyDictInsert d (key it) (val it)) = _
    rw [pyDictInsert_new d (key it) (val it) (fun p hp => hfresh it (by simp) p hp)]
    rw [List.map_cons, List.nodup_cons] at hnodup
    rw [ih (d ++ [(key it, val it)])
          (fun x hx p hp => by
            rcases List.mem_append.mp hp with hp | hp
            · exact hfresh x (by simp [hx]) p hp
            · have : p = (key it, val it) := by simpa using hp
              rw [this]
              intro hk
              have hk' : key it = key x := hk
              exact hnodup.1 (by rw [hk']; exact List.mem_map_of_mem key hx))
          hnodup.2]
    simp

/-- Looking up the key of a member of a distinct-key association list. -/
theorem pyDictGet_map_self {β γ : Type} (key : β → Option String)
    (val : β → γ) :
    ∀ (items : List β), (items.map key).Nodup →
    ∀ it ∈ items,
      pyDictGet (items.map (fun x => (key x, val x))) (key it) = some (val it) := by
  intro items
  induction items with
  | nil => intro _ it hit; exact absurd hit (by simp)
  | cons x rest ih =>
    intro hnodup it hit
    rw [List.map_cons, List.nodup_cons] at hnodup
    rcases List.mem_cons.mp hit with rfl | hit
    · unfold pyDictGet
      rw [List.map_cons, List.find?_cons_of_pos _ (by simp)]
      rfl
    · unfold pyDictGet
      rw [List.map_cons, List.find?_cons_of_neg _ (by
            simp only [decide_eq_true_eq]
            intro hk
            have hk' : key x = key it := hk
            exact hnodup.1 (by rw [hk']; exact List.mem_map_of_mem key hit))]
      exact ih hnodup.2 it hit

/-- Both current values are set and inside the option domain — what the
round-trip needs, since `load_from_json` re-applies the exported values
through the validating setters. -/
def valuesInDomain (s : Setting) : Bool :=
  (match s.ac_value with
   | some a => s.checkValue a = some true
   | none => false) &&
  (match s.dc_value with
   | some d => s.checkValue d = some true
   | none => false)

/-- A setting restored from its own export is unchanged. -/
theorem setting_reload_self (s : Setting) (h : valuesInDomain s = true) :
    s.loadFromJson s.toJson = .ok s := by
  unfold valuesInDomain at h
  rw [Bool.and_eq_true] at h
  obtain ⟨ha, hd⟩ := h
  cases hac : s.ac_value with
  | none => rw [hac] at ha; exact absurd ha (by simp)
  | some a =>
    cases hdc : s.dc_value with
    | none => rw [hdc] at hd; exact absurd hd (by simp)
    | some d =>
      rw [hac] at ha
      rw [hdc] at hd
      simp only [decide_eq_true_eq] at ha hd
      unfold Setting.loadFromJson Setting.toJson
      have h1 : s.setValue s.ac_value true = .ok s := by
        unfold Setting.setValue Setting.checkValueOpt
        rw [hac]
        dsimp only
        rw [ha]
        dsimp only
        show Except.ok { s with ac_value := some a } = Except.ok s
        rw [← hac]
      dsimp only
      rw [h1]
      have h2 : s.setValue s.dc_value false = .ok s := by
        unfold Setting.setValue Setting.checkValueOpt
        rw [hdc]
        dsimp only
        rw [hd]
        dsimp only
        show Except.ok { s with dc_value := some d } = Except.ok s
        rw [← hdc]
      dsimp only
      rw [h2]

/-- A subgroup restored from its own export is unchanged, provided its
settings have distinct GUIDs and in-domain values. -/
theorem subgroup_reload_self (g : SubGroup)
    (hnodup : (g.settings.map Setting.guid).Nodup)
    (hvals : ∀ s ∈ g.settings, valuesInDomain s = true) :
    g.loadFromJson g.toJson = .ok g := by
  unfold SubGroup.loadFromJson
  have hdict : g.toJson.settings =
      g.settings.map (fun s => (s.guid, s.toJson)) := by
    show g.settings.foldl _ [] = _
    rw [foldl_pyDictInsert_eq Setting.guid Setting.toJson g.settings []
          (fun _ _ p hp => absurd hp (by simp)) hnodup]
    rfl
  have hloop : loadSettingsLoop g.toJson.settings g.settings = .ok g.settings := by
    apply loadSettingsLoop_ok
    rw [List.forall₂_same]
    intro s hs
    refine ⟨s.toJson, ?_, setting_reload_self s (hvals s hs)⟩
    rw [hdict]
    exact pyDictGet_map_self Setting.guid Setting.toJson g.settings hnodup s hs
  rw [hloop]

/-- **C5 (amended).** Round-trip: parse a tree, export it, and restore a
freshly parsed tree (parsing is deterministic, so the second tree is the
very same value) from the export.  Because restore re-applies the exported
values through the *validating* setters while values parsed from raw text
are never validated, the round-trip is only guaranteed when every setting's
parsed `ac_value`/`dc_value` exist and lie inside its inferred option
domain, and when subgroup and setting GUIDs are duplicate-free (the export
is GUID-keyed, so a duplicate would be collapsed); under those conditions
the restore succeeds and reproduces every `ac_value`/`dc_value`
unchanged. -/
theorem roundtrip_values (text : String) (sc : Scheme)
    (hparse : Scheme.ofString text = .ok sc)
    (hnodupG : (sc.subgroups.map SubGroup.guid).Nodup)
    (hnodupS : ∀ g ∈ sc.subgroups, (g.settings.map Setting.guid).Nodup)
    (hvals : ∀ g ∈ sc.subgroups, ∀ s ∈ g.settings, valuesInDomain s = true) :
    sc.loadFromJson sc.toJson = .ok sc := by
  unfold Scheme.loadFromJson
  rw [if_neg (by simp [Scheme.toJson])]
  have hdict : sc.toJson.subgroups =
      sc.subgroups.map (fun g => (g.guid, g.toJson)) := by
    show sc.subgroups.foldl _ [] = _
    rw [foldl_pyDictInsert_eq SubGroup.guid SubGroup.toJson sc.subgroups []
          (fun _ _ p hp => absurd hp (by simp)) hnodupG]
    rfl
  have hloop : loadSubgroupsLoop sc.toJson.subgroups sc.subgroups =
      .ok sc.subgroups := by
    apply loadSubgroupsLoop_ok
    rw [List.forall₂_same]
    intro g hg
    refine Or.inr ⟨g.toJson, ?_,
      subgroup_reload_self g (hnodupS g hg) (hvals g hg)⟩
    rw [hdict]
    exact pyDictGet_map_self SubGroup.guid SubGroup.toJson sc.subgroups hnodupG g hg
  rw [hloop]

/-- A complete raw text whose setting's values lie inside its RANGE
domain. -/
def exSchemeText : String :=
  "Power Scheme GUID: 381b4222-f694-41f0-9685-ff5bb260df2e  (Balanced)\n" ++
  "  Subgroup GUID: 238c9fa8-0aad-41ed-83f4-97be242c8f20  (Sleep)\n" ++
  "    Power Setting GUID: 29f6c1db-86da-48c5-9fdb-f2b67b1f44da  (Sleep after)\n" ++
  "      Minimum Possible Setting: 0x00000000\n" ++
  "      Maximum Possible Setting: 0x0000000f\n" ++
  "    Current AC Power Setting Index: 0x00000007\n" ++
  "    Current DC Power Setting Index: 0x00000003"

/-- The tree parsed from `exSchemeText`. -/
def exScheme : Scheme :=
  ⟨some "381b4222-f694-41f0-9685-ff5bb260df2e", some "Balanced",
   [⟨some "238c9fa8-0aad-41ed-83f4-97be242c8f20", some "Sleep", [exSetting]⟩]⟩

/-- Witness for `roundtrip_values` at `exSchemeText`: the parsed tree
restores unchanged from its own export. -/
theorem roundtrip_values_witness :
    Scheme.loadFromJson exScheme (Scheme.toJson exScheme) = .ok exScheme :=
  roundtrip_values exSchemeText exScheme (by decide) (by decide)
    (by decide) (by decide)

/-- The same raw text except that the RANGE domain is `[0, 1]` while the
parsed AC value is `0x5` — out of domain, which raw-text parsing accepts
unvalidated. -/
def exBadText : String :=
  "Power Scheme GUID: 381b4222-f694-41f0-9685-ff5bb260df2e  (Balanced)\n" ++
  "  Subgroup GUID: 238c9fa8-0aad-41ed-83f4-97be242c8f20  (Sleep)\n" ++
  "    Power Setting GUID: 29f6c1db-86da-48c5-9fdb-f2b67b1f44da  (Sleep after)\n" ++
  "      Minimum Possible Setting: 0x00000000\n" ++
  "      Maximum Possible Setting: 0x00000001\n" ++
  "    Current AC Power Setting Index: 0x00000005\n" ++
  "    Current DC Power Setting Index: 0x00000000"

/-- The tree parsed from `exBadText`. -/
def exBadScheme : Scheme :=
  ⟨some "381b4222-f694-41f0-9685-ff5bb260df2e", some "Balanced",
   [⟨some "238c9fa8-0aad-41ed-83f4-97be242c8f20", some "Sleep",
     [⟨some "29f6c1db-86da-48c5-9fdb-f2b67b1f44da", some "Sleep after",
       [⟨"Minimum Possible Setting", "0"⟩, ⟨"Maximum Possible Setting", "1"⟩],
       some 5, some 5, some 0, some 0, 0, [0, 1]⟩]⟩]⟩

/-- **C5 counterexample.** The claim promises the round-trip succeeds for
*any* raw text.  `exBadText` parses fine (raw values are not validated),
but restoring the freshly parsed tree (identical to `exBadScheme`, parsing
being deterministic) from the export re-applies `ac_value = 5` through the
validating setter against the RANGE domain `[0, 1]` and raises
`WrongSettingValueException` — the round-trip errors instead of
reproducing the values. -/
theorem roundtrip_cex :
    Scheme.ofString exBadText = .ok exBadScheme ∧
    Scheme.loadFromJson exBadScheme (Scheme.toJson exBadScheme) =
      .error (.wrongSettingValue (some "Sleep after")
                (some "29f6c1db-86da-48c5-9fdb-f2b67b1f44da") (some 5) [0, 1]
                "RANGE",
              exBadScheme) := by
  constructor <;> decide

end Powercfg
